import Mathlib

/-!
# microblog: a shallow embedding of `cmd/main.go`

The program promotes drafts (`process_draft`), compiles every article to an
HTML page (`process_article`, `process_file`, `find_first_title`) and writes an
index (`process_index`).  Go strings are modelled as lists of characters; the
only characters the program inspects are ASCII (`/`, `.md`), so the byte view
and the character view of a string agree on every test made here.
-/

namespace Microblog

/-- Go `string`, as a list of characters. -/
abbrev Str := List Char

/-! ## Constants of `main.go` -/

def PUBLISH_DIR : Str := "publish".toList
def ARTICLE_DIR : Str := "article".toList
def DRAFT_DIR : Str := "draft".toList

/-- The literal `".md"`, the suffix of a markdown file. -/
def MD_SUFFIX : Str := ".md".toList

/-- The literal `"index.html"`, the name of the index page. -/
def INDEX_HTML : Str := "index.html".toList

/-- The literal `".html"`, the suffix of an output page. -/
def HTML_SUFFIX : Str := ".html".toList

/-! ## The pieces of the Go standard library the program calls -/

/-- The Go call `strings.HasSuffix`. -/
def strings_HasSuffix (s suffix : Str) : Bool :=
  suffix.isSuffixOf s

/-- The Go call `strings.TrimSuffix`: `s` without the trailing `suffix`, or `s`
itself when it does not end in `suffix`. -/
def strings_TrimSuffix (s suffix : Str) : Str :=
  if strings_HasSuffix s suffix then s.take (s.length - suffix.length) else s

/-- The slash-separated elements of a path (`"a//b"` has an empty element). -/
def splitSlash : Str → List Str
  | [] => [[]]
  | c :: cs =>
    if c = '/' then [] :: splitSlash cs
    else
      match splitSlash cs with
      | h :: t => (c :: h) :: t
      | [] => [[c]]

/-- One element of a path pushed on the stack of elements kept so far (the
stack is reversed): `..` removes the element before it, is dropped at the root,
and is kept at the start of a relative path. -/
def cleanStep (rooted : Bool) (stack : List Str) (c : Str) : List Str :=
  if c = "..".toList then
    match stack with
    | top :: rest => if top = "..".toList then c :: stack else rest
    | [] => if rooted then [] else [c]
  else c :: stack

/-- The Go call `path.Clean`, by its documented rules: multiple slashes become one, `.`
elements are dropped, an inner `..` goes with the element before it, a `..`
that begins a rooted path is dropped, and the empty result is `"."`. -/
def path_Clean (p : Str) : Str :=
  let rooted : Bool := p.head? = some '/'
  let comps := (splitSlash p).filter (fun c => decide (c ≠ []) && decide (c ≠ ".".toList))
  let stack := comps.foldl (cleanStep rooted) []
  let r := (if rooted then "/".toList else []) ++ "/".toList.intercalate stack.reverse
  if r = [] then ".".toList else r

/-- The buffer `path.Join` builds before cleaning it: the elements joined by
slashes, leading empty elements ignored. -/
def joinBuf : Str → List Str → Str
  | buf, [] => buf
  | buf, e :: es =>
    if buf ≠ [] ∨ e ≠ [] then
      joinBuf ((if buf ≠ [] then buf ++ ['/'] else buf) ++ e) es
    else joinBuf buf es

/-- The Go call `path.Join`. -/
def path_Join (elem : List Str) : Str :=
  if (elem.map List.length).sum = 0 then [] else path_Clean (joinBuf [] elem)

/-- The Go call `path.Base`: the last element of the path, trailing slashes
removed first. -/
def path_Base (p : Str) : Str :=
  if p = [] then ".".toList
  else
    let p1 := (p.reverse.dropWhile (fun c => c = '/')).reverse
    let p2 := (splitSlash p1).getLastD []
    if p2 = [] then "/".toList else p2

/-- A `time.Time` in UTC, by what `Date()` and `Clock()` report of it. -/
structure Time where
  year : Nat
  month : Nat
  day : Nat
  hour : Nat
  minute : Nat
  second : Nat
  deriving DecidableEq, Repr

/-- The decimal digits of `n`, zero-padded on the left to `width` (Go's
`appendInt`: a longer number is written in full). -/
def appendInt (n width : Nat) : Str :=
  let d := Nat.toDigits 10 n
  List.replicate (width - d.length) '0' ++ d

/-- The Go call `t.Format("20060102-150405")`: year on four digits, month, day, a dash,
hour, minute, second on two digits each. -/
def Time.Format (t : Time) : Str :=
  appendInt t.year 4 ++ appendInt t.month 2 ++ appendInt t.day 2 ++ ['-'] ++
    appendInt t.hour 2 ++ appendInt t.minute 2 ++ appendInt t.second 2

/-! ## The parsed document tree (goldmark `ast.Node`) -/

/-- The node kinds of the document tree that matter here. -/
inductive NodeKind
  | Document | Heading | Paragraph | Blockquote | ListBlock | ListItem | Text | Emphasis
  | CodeBlock | ThematicBreak
  deriving DecidableEq, Repr

/-- A node of the document tree: its kind, the source text it carries, and its
children in document order.  `FirstChild` is the head of `children`,
`NextSibling` the next element of the parent's list. -/
inductive Node where
  | mk (kind : NodeKind) (segment : Str) (children : List Node)

namespace Node

/-- The Go call `node.Kind()`. -/
def Kind : Node → NodeKind
  | mk k _ _ => k

/-- The node's own source text. -/
def Segment : Node → Str
  | mk _ s _ => s

/-- The children of the node, first to last. -/
def Children : Node → List Node
  | mk _ _ cs => cs

/-- The Go call `node.HasChildren()`. -/
def HasChildren (n : Node) : Bool :=
  !n.Children.isEmpty

/-- Whether the node is a heading, as a boolean. -/
def isHeading (n : Node) : Bool :=
  decide (n.Kind = NodeKind.Heading)

end Node

mutual
/-- The nodes of a subtree in depth-first pre-order: the node, then its
children's subtrees from first to last. -/
def Node.preorder : Node → List Node
  | .mk k s cs => .mk k s cs :: preorderList cs
/-- The pre-order walk of a list of sibling subtrees. -/
def preorderList : List Node → List Node
  | [] => []
  | c :: cs => c.preorder ++ preorderList cs
end

mutual
/-- One iteration of the `for` loop of `find_first_title`: when the node has
children, the recursive call on its first child; then the node's own kind. -/
def find_first_title.iter : Node → Option Node
  | .mk k s cs =>
    match find_first_title.first cs with
    | some ret => some ret
    | none => if k = NodeKind.Heading then some (.mk k s cs) else none
/-- The call `find_first_title(node.FirstChild())` on a list of children: the
kind test on the first child, then the loop from it over its siblings (no call
is made on an empty list, this is the `HasChildren` guard). -/
def find_first_title.first : List Node → Option Node
  | [] => none
  | c :: next =>
    if c.Kind = NodeKind.Heading then some c
    else
      match find_first_title.iter c with
      | some ret => some ret
      | none => find_first_title.loop next
/-- The remaining iterations of the `for` loop, over the later siblings. -/
def find_first_title.loop : List Node → Option Node
  | [] => none
  | n :: next =>
    match find_first_title.iter n with
    | some ret => some ret
    | none => find_first_title.loop next
end

/-- The function `find_first_title(node)`, where `next` are the siblings that follow `node`
(what `NextSibling` walks through; empty for the document root). -/
def find_first_title (node : Node) (next : List Node) : Option Node :=
  if node.Kind = NodeKind.Heading then some node
  else
    match find_first_title.iter node with
    | some ret => some ret
    | none => find_first_title.loop next

/-! ## The external collaborators: markdown compiler and template engine -/

/-- The goldmark instance `md`, as the three functions the program calls:
`md.Parser().Parse`, `md.Renderer().Render` and `node.Text(source)`. -/
structure Markdown where
  Parse : Str → Node
  Render : Str → Node → Str
  Text : Node → Str → Str

/-- What `html/template` adds to the template text: the escaping of a value in
the `<title>` element, in element content and in an `href` attribute, and what
an action on a field of nil data prints. -/
structure Escaper where
  rcdata : Str → Str
  html : Str → Str
  url : Str → Str
  no_value : Str

/-- The struct `base_template_data`. -/
structure base_template_data where
  Title : Str
  deriving DecidableEq, Repr

/-- The struct `article_entry`. -/
structure article_entry where
  Title : Str
  Url : Str
  deriving DecidableEq, Repr

/-- The anonymous struct `process_file` gives to the "article" template: the
embedded `base_template_data` and `Content template.HTML`. -/
structure article_data where
  base : base_template_data
  Content : Str
  deriving DecidableEq, Repr

/-- The template "header", executed with `dot`; `none` is nil data, the dot of
a `template` action that passes no pipeline. -/
def template_header (esc : Escaper) (dot : Option base_template_data) : Str :=
  "<!DOCTYPE html>\n<html>\n<head>\n\t<meta charset=\"UTF-8\">\n\t<title>".toList ++
    (match dot with
      | some d => esc.rcdata d.Title
      | none => esc.no_value) ++
    "</title>\n\t<meta name=\"viewport\" content=\"width=device-width, initial-scale=1\" />\n</head>\n<body>\n".toList

/-- The template "footer"; it reads nothing of its data. -/
def template_footer : Str :=
  "\n<hr>\n<footer>\n<p><small>Powered by <a href=\"https://github.com/Inndy/microblog\">microblog</a></small></p>\n</footer>\n</body>\n</html>\n".toList

/-- The template "article": header and footer are invoked by
`template "header"` and `template "footer"`, with no pipeline, so with nil
data; `.Content` is `template.HTML` and is copied unescaped. -/
def template_article (esc : Escaper) (dot : article_data) : Str :=
  template_header esc none ++
    "\n<a href=\"#\" onclick=\"history.back(); e.preventDefault();\">back</a>\n<article>\n".toList ++
    dot.Content ++ "\n</article>\n".toList ++ template_footer ++ "\n".toList

/-- One round of the `range` of the template "list". -/
def template_list_item (esc : Escaper) (e : article_entry) : Str :=
  "\n\t<li><a href=\"".toList ++ esc.url e.Url ++ "\">".toList ++ esc.html e.Title ++
    "</a></li>\n".toList

/-- The template "list": one `li` per entry, in the order of the slice. -/
def template_list (esc : Escaper) (dot : List article_entry) : Str :=
  "\n<ul>\n".toList ++ (dot.map (template_list_item esc)).flatten ++ "\n</ul>\n".toList

/-! ## The file system and the process state -/

/-- An entry of `draft/` or `article/`: its name, what `Info()` gives (the
modification time in UTC, or the error text) and what `os.ReadFile` gives. -/
structure DirEntry where
  Name : Str
  Info : Except Str Time
  Data : Except Str Str

/-- The state the program runs on: the three directories, the console, the
global `article_list`, and the record of the `os.Rename` calls made. -/
structure World where
  draft : List DirEntry
  article : List DirEntry
  publish : Str → Option Str
  console : List Str
  article_list : List article_entry
  renames : List (Str × Str)

/-- What is fixed during a build: the markdown compiler, the template escaping,
the `%q` verb of `fmt`, and which calls the system refuses (the error text of
listing a directory, of a rename, of opening a path for writing). -/
structure Sys where
  md : Markdown
  esc : Escaper
  quote : Str → Str
  readdir_err : Str → Option Str
  rename_err : Str → Str → Option Str
  open_err : Str → Option Str

/-- Byte-wise order of two strings, the order `os.ReadDir` sorts names by. -/
def str_le : Str → Str → Bool
  | [], _ => true
  | _ :: _, [] => false
  | a :: as, b :: bs => if a.toNat < b.toNat then true else if b.toNat < a.toNat then false else str_le as bs

/-- The entries of a directory in the order `os.ReadDir` returns them. -/
def sortEntries (l : List DirEntry) : List DirEntry :=
  l.insertionSort (fun a b => str_le a.Name b.Name = true)

/-- The Go call `os.ReadDir`. -/
def os_ReadDir (sys : Sys) (w : World) (dir : Str) : Except Str (List DirEntry) :=
  match sys.readdir_err dir with
  | some err => .error err
  | none =>
    if dir = DRAFT_DIR then .ok (sortEntries w.draft)
    else if dir = ARTICLE_DIR then .ok (sortEntries w.article)
    else .error ("open ".toList ++ dir ++ ": not a directory of the site".toList)

/-- The entry of a directory listing with the given name. -/
def lookupEntry (l : List DirEntry) (name : Str) : Option DirEntry :=
  l.find? (fun e => decide (e.Name = name))

/-- The Go call `os.ReadFile`. -/
def os_ReadFile (w : World) (p : Str) : Except Str Str :=
  match splitSlash p with
  | [d, n] =>
    if d = ARTICLE_DIR then
      match lookupEntry w.article n with
      | some e => e.Data
      | none => .error ("open ".toList ++ p ++ ": no such file or directory".toList)
    else if d = DRAFT_DIR then
      match lookupEntry w.draft n with
      | some e => e.Data
      | none => .error ("open ".toList ++ p ++ ": no such file or directory".toList)
    else if d = PUBLISH_DIR then
      match w.publish n with
      | some c => .ok c
      | none => .error ("open ".toList ++ p ++ ": no such file or directory".toList)
    else .error ("open ".toList ++ p ++ ": no such file or directory".toList)
  | _ => .error ("open ".toList ++ p ++ ": no such file or directory".toList)

/-- The Go call `os.OpenFile(p, O_CREATE|O_TRUNC|O_WRONLY, 0o644)`: the file exists and is
empty afterwards; the handle is the file's name in `publish/`, the only
directory the program writes to. -/
def os_OpenFile (sys : Sys) (w : World) (p : Str) : Except Str (World × Str) :=
  match sys.open_err p with
  | some err => .error err
  | none =>
    match splitSlash p with
    | [d, n] =>
      if d = PUBLISH_DIR then
        .ok ({ w with publish := fun q => if q = n then some [] else w.publish q }, n)
      else .error ("open ".toList ++ p ++ ": not in the output directory".toList)
    | _ => .error ("open ".toList ++ p ++ ": not in the output directory".toList)

/-- A write to an open file: the data goes after what the file holds. -/
def File_Write (w : World) (fout : Str) (data : Str) : World :=
  { w with publish := fun q => if q = fout then some ((w.publish fout).getD [] ++ data)
                               else w.publish q }

/-- The Go call `os.Rename` of a draft into `article/`: the entry leaves `draft/` and takes
the place of any entry of that name in `article/`. -/
def os_Rename (sys : Sys) (w : World) (oldpath newpath : Str) : Except Str World :=
  match sys.rename_err oldpath newpath with
  | some err => .error err
  | none =>
    match splitSlash oldpath, splitSlash newpath with
    | [d1, n1], [d2, n2] =>
      if d1 = DRAFT_DIR ∧ d2 = ARTICLE_DIR then
        match lookupEntry w.draft n1 with
        | some e =>
          .ok { w with
                draft := w.draft.filter (fun x => decide (x.Name ≠ n1))
                article := { e with Name := n2 } :: w.article.filter (fun x => decide (x.Name ≠ n2)) }
        | none => .error ("rename ".toList ++ oldpath ++ ": no such file or directory".toList)
      else .error ("rename ".toList ++ oldpath ++ ": not a draft promotion".toList)
    | _, _ => .error ("rename ".toList ++ oldpath ++ ": not a draft promotion".toList)

/-- The Go call `fmt.Printf`: one more piece of console output. -/
def Printf (w : World) (line : Str) : World :=
  { w with console := w.console ++ [line] }

/-! ## The functions of `main.go` -/

/-- The body of the loop of `process_draft` for one entry. -/
def process_draft_body (sys : Sys) (w : World) (ent : DirEntry) : World :=
  if !strings_HasSuffix ent.Name MD_SUFFIX then
    Printf w ("WARNING: skip non-markdown file in draft: ".toList ++ sys.quote ent.Name)
  else
    match ent.Info with
    | .error err =>
      Printf w ("ERROR: can not get file info ".toList ++ sys.quote ent.Name ++ ": ".toList ++ err)
    | .ok info =>
      let mod_time := info.Format
      let new_name := mod_time ++ "--".toList ++ ent.Name
      let oldpath := path_Join [DRAFT_DIR, ent.Name]
      let newpath := path_Join [ARTICLE_DIR, new_name]
      let w1 := { w with renames := w.renames ++ [(oldpath, newpath)] }
      match os_Rename sys w1 oldpath newpath with
      | .ok w2 => w2
      | .error _ => w1

/-- The loop of `process_draft` over the listing. -/
def process_draft_loop (sys : Sys) : List DirEntry → World → World
  | [], w => w
  | ent :: rest, w => process_draft_loop sys rest (process_draft_body sys w ent)

/-- The function `process_draft`; the error is the panic message. -/
def process_draft (sys : Sys) (w : World) : Except Str World :=
  match os_ReadDir sys w DRAFT_DIR with
  | .error err =>
    .error ("can not read draft dir ".toList ++ sys.quote DRAFT_DIR ++ ": ".toList ++ err)
  | .ok drafts => .ok (process_draft_loop sys drafts w)

/-- The function `process_file`: the state afterwards and the returned title. -/
def process_file (sys : Sys) (w : World) (input_path output_path : Str) : World × Str :=
  match os_ReadFile w input_path with
  | .error err =>
    (Printf w ("ERROR: can not read input file ".toList ++ sys.quote input_path ++
      ": ".toList ++ err), [])
  | .ok content =>
    match os_OpenFile sys w output_path with
    | .error err =>
      (Printf w ("ERROR: can not open output file ".toList ++ sys.quote output_path ++
        ": ".toList ++ err), [])
    | .ok (w1, fout) =>
      let parsed_md := sys.md.Parse content
      let title :=
        match find_first_title parsed_md [] with
        | some title_node => sys.md.Text title_node content
        | none => strings_TrimSuffix (path_Base input_path) MD_SUFFIX
      let buff := sys.md.Render content parsed_md
      (File_Write w1 fout (template_article sys.esc ⟨⟨title⟩, buff⟩), title)

/-- The body of the loop of `process_article` for one entry. -/
def process_article_body (sys : Sys) (w : World) (ent : DirEntry) : World :=
  if !strings_HasSuffix ent.Name MD_SUFFIX then
    Printf w ("WARNING: skip non-markdown file in article: ".toList ++ sys.quote ent.Name)
  else
    let input_path := path_Join [ARTICLE_DIR, ent.Name]
    let output_filename := strings_TrimSuffix ent.Name MD_SUFFIX ++ HTML_SUFFIX
    let output_path := path_Join [PUBLISH_DIR, output_filename]
    let r := process_file sys w input_path output_path
    let w1 := Printf r.1 ("generated ".toList ++ output_path ++ "\n".toList)
    { w1 with article_list := w1.article_list ++ [⟨r.2, output_filename⟩] }

/-- The loop of `process_article` over the listing. -/
def process_article_loop (sys : Sys) : List DirEntry → World → World
  | [], w => w
  | ent :: rest, w => process_article_loop sys rest (process_article_body sys w ent)

/-- The function `process_article`; the error is the panic message. -/
def process_article (sys : Sys) (w : World) : Except Str World :=
  match os_ReadDir sys w ARTICLE_DIR with
  | .error err =>
    .error ("can not read article dir ".toList ++ sys.quote ARTICLE_DIR ++ ": ".toList ++ err)
  | .ok articles => .ok (process_article_loop sys articles w)

/-- The function `process_index`. -/
def process_index (sys : Sys) (w : World) : World :=
  let output_path := path_Join [PUBLISH_DIR, INDEX_HTML]
  match os_OpenFile sys w output_path with
  | .error err =>
    Printf w ("ERROR: can not open output file ".toList ++ sys.quote output_path ++
      ": ".toList ++ err)
  | .ok (w1, fout) =>
    let template_data : base_template_data := ⟨"microblog".toList⟩
    let w2 := File_Write w1 fout (template_header sys.esc (some template_data))
    let w3 := File_Write w2 fout (template_list sys.esc w.article_list)
    File_Write w3 fout template_footer

/-- The function `main` on a fresh process: the console and `article_list` start empty, the
three directories exist (the `os.Mkdir` calls change nothing then) and the
template text parses. -/
def main (sys : Sys) (w : World) : Except Str World :=
  match process_draft sys { w with console := [], article_list := [], renames := [] } with
  | .error msg => .error msg
  | .ok w1 =>
    match process_article sys w1 with
    | .error msg => .error msg
    | .ok w2 => .ok (process_index sys w2)

/-! ## Specification-side notions for the document tree -/

/-- No heading of the listed nodes has a heading among its proper descendants. -/
def FlatIn (l : List Node) : Prop :=
  ∀ m ∈ l, m.Kind = NodeKind.Heading → ∀ x ∈ preorderList m.Children, x.Kind ≠ NodeKind.Heading

/-- No heading of the subtree has a heading among its proper descendants (the
headings goldmark builds hold inline nodes only). -/
def HeadingsFlat (root : Node) : Prop :=
  FlatIn root.preorder

instance FlatIn.decidable (l : List Node) : Decidable (FlatIn l) := by
  unfold FlatIn; infer_instance

instance HeadingsFlat.decidable (root : Node) : Decidable (HeadingsFlat root) := by
  unfold HeadingsFlat; infer_instance

/-- The first heading of a list of nodes. -/
def firstHeading (l : List Node) : Option Node :=
  l.find? Node.isHeading

/-! ## Specification-side notions for names -/

/-- A name a directory entry can bear next to `.` and `..`: not empty, no
slash. -/
def GoodName (n : Str) : Prop :=
  n ≠ [] ∧ '/' ∉ n ∧ n ≠ ".".toList ∧ n ≠ "..".toList

instance GoodName.decidable (n : Str) : Decidable (GoodName n) := by
  unfold GoodName; infer_instance

/-- The rename `process_draft` asks for an entry, if any: for a name ending in
`.md` whose file info is read, from `draft/<name>` to
`article/<timestamp>--<name>`. -/
def promotion (ent : DirEntry) : Option (Str × Str) :=
  if strings_HasSuffix ent.Name MD_SUFFIX then
    match ent.Info with
    | .ok t => some (DRAFT_DIR ++ '/' :: ent.Name,
        ARTICLE_DIR ++ '/' :: (t.Format ++ "--".toList ++ ent.Name))
    | .error _ => none
  else none

/-- A draft the promoter leaves alone whatever the state: its name does not
end in `.md`, or its file info cannot be read, or the system refuses its
rename. -/
def Inert (sys : Sys) (e : DirEntry) : Prop :=
  strings_HasSuffix e.Name MD_SUFFIX = false ∨ (∃ err, e.Info = .error err) ∨
    ∃ t, e.Info = .ok t ∧
      sys.rename_err (path_Join [DRAFT_DIR, e.Name])
        (path_Join [ARTICLE_DIR, t.Format ++ "--".toList ++ e.Name]) ≠ none

/-! ## Concrete inputs -/

/-- A paragraph leaf. -/
def para (s : String) : Node := .mk .Paragraph s.toList []

/-- A heading leaf. -/
def heading (s : String) : Node := .mk .Heading s.toList []

/-- A document whose second child is a heading that holds another heading. -/
def doc_heading_in_heading : Node :=
  .mk .Document [] [para "intro", .mk .Heading "A".toList [heading "B"]]

/-- A document with a heading inside a blockquote that comes before a
top-level heading. -/
def doc_blockquote : Node :=
  .mk .Document [] [para "intro", .mk .Blockquote [] [heading "H1"], heading "H2"]

/-- A document whose only heading is three levels below the root, after
siblings that hold no heading. -/
def doc_deep : Node :=
  .mk .Document [] [para "intro",
    .mk .Blockquote [] [para "quote",
      .mk .ListBlock [] [.mk .ListItem [] [para "item"], heading "Deep"]],
    para "end"]

/-- A toy markdown compiler to run the model on: a source that starts with
`# ` is one heading holding the rest, any other source is one paragraph. -/
def demo_md : Markdown where
  Parse := fun c =>
    if "# ".toList.isPrefixOf c then .mk .Document [] [.mk .Heading (c.drop 2) []]
    else .mk .Document [] [.mk .Paragraph c []]
  Render := fun _ n =>
    match n.Children with
    | [.mk .Heading s _] => "<h1>".toList ++ s ++ "</h1>".toList
    | [.mk _ s _] => "<p>".toList ++ s ++ "</p>".toList
    | _ => []
  Text := fun n _ => n.Segment

/-- The escaping of text that `html/template` leaves as it is (letters, digits,
dots and dashes); a nil value prints as nothing. -/
def plain_esc : Escaper := ⟨id, id, id, []⟩

/-- The verb `%q` on a string that needs no escape: the string in double quotes. -/
def quote_plain (s : Str) : Str := '"' :: s ++ ['"']

/-- A system with the toy compiler that refuses the listed renames and opens. -/
def demo_sys (rename_err : Str → Str → Option Str) (open_err : Str → Option Str) : Sys :=
  ⟨demo_md, plain_esc, quote_plain, fun _ => none, rename_err, open_err⟩

/-- A system that refuses nothing. -/
def ok_sys : Sys := demo_sys (fun _ _ => none) (fun _ => none)

/-- A system in which `publish/broken.html` cannot be opened. -/
def broken_sys : Sys :=
  demo_sys (fun _ _ => none)
    (fun p => if p = "publish/broken.html".toList then some "permission denied".toList else none)

/-- A system in which no rename succeeds. -/
def norename_sys : Sys :=
  demo_sys (fun _ _ => some "permission denied".toList) (fun _ => none)

/-- A regular file with the given name and content, last modified on
2024-03-05 at 14:22:01 UTC. -/
def file (name content : String) : DirEntry :=
  ⟨name.toList, .ok ⟨2024, 3, 5, 14, 22, 1⟩, .ok content.toList⟩

/-- An entry whose file info cannot be read. -/
def file_no_info (name content : String) : DirEntry :=
  ⟨name.toList, .error "no such file or directory".toList, .ok content.toList⟩

/-- The state with the given drafts and articles, nothing published yet. -/
def world (draft article : List DirEntry) : World :=
  ⟨draft, article, fun _ => none, [], [], []⟩

/-- A site with one draft to promote, one file that is no markdown, and one
article without a heading. -/
def demo_world : World :=
  world [file "hello.md" "# Hello", file "readme.txt" "read me"] [file "notes.md" "plain text"]

/-! ## Theorems: the title search -/

theorem preorder_mk (k : NodeKind) (s : Str) (cs : List Node) :
    (Node.mk k s cs).preorder = Node.mk k s cs :: preorderList cs := by
  simp [Node.preorder]

theorem preorderList_cons (c : Node) (cs : List Node) :
    preorderList (c :: cs) = c.preorder ++ preorderList cs := by
  simp [preorderList]

theorem preorder_eq (n : Node) : n.preorder = n :: preorderList n.Children := by
  cases n with
  | mk k s cs => simp [Node.preorder, Node.Children]

theorem mem_preorder_self (n : Node) : n ∈ n.preorder := by
  rw [preorder_eq]; exact List.mem_cons_self _ _

mutual
theorem iter_some : ∀ (n : Node) (r : Node), find_first_title.iter n = some r →
    r ∈ n.preorder ∧ r.Kind = NodeKind.Heading
  | .mk k s cs, r, h => by
    rw [find_first_title.iter] at h
    rw [preorder_mk]
    cases hf : find_first_title.first cs with
    | some x =>
      rw [hf] at h
      simp only [Option.some.injEq] at h
      subst h
      have := first_some cs x hf
      exact ⟨List.mem_cons_of_mem _ this.1, this.2⟩
    | none =>
      rw [hf] at h
      by_cases hk : k = NodeKind.Heading
      · rw [if_pos hk] at h
        simp only [Option.some.injEq] at h
        subst h
        exact ⟨List.mem_cons_self _ _, hk⟩
      · simp [hk] at h
theorem first_some : ∀ (cs : List Node) (r : Node), find_first_title.first cs = some r →
    r ∈ preorderList cs ∧ r.Kind = NodeKind.Heading
  | [], r, h => by simp [find_first_title.first] at h
  | c :: next, r, h => by
    rw [find_first_title.first] at h
    rw [preorderList_cons]
    by_cases hc : c.Kind = NodeKind.Heading
    · simp only [hc, if_true, Option.some.injEq] at h
      subst h
      exact ⟨List.mem_append_left _ (mem_preorder_self _), hc⟩
    · simp only [hc, if_false] at h
      cases hi : find_first_title.iter c with
      | some x =>
        rw [hi] at h
        simp only [Option.some.injEq] at h
        subst h
        have := iter_some c x hi
        exact ⟨List.mem_append_left _ this.1, this.2⟩
      | none =>
        rw [hi] at h
        have := loop_some next r h
        exact ⟨List.mem_append_right _ this.1, this.2⟩
theorem loop_some : ∀ (l : List Node) (r : Node), find_first_title.loop l = some r →
    r ∈ preorderList l ∧ r.Kind = NodeKind.Heading
  | [], r, h => by simp [find_first_title.loop] at h
  | n :: next, r, h => by
    rw [find_first_title.loop] at h
    rw [preorderList_cons]
    cases hi : find_first_title.iter n with
    | some x =>
      rw [hi] at h
      simp only [Option.some.injEq] at h
      subst h
      have := iter_some n x hi
      exact ⟨List.mem_append_left _ this.1, this.2⟩
    | none =>
      rw [hi] at h
      have := loop_some next r h
      exact ⟨List.mem_append_right _ this.1, this.2⟩
end

mutual
theorem iter_none : ∀ (n : Node), find_first_title.iter n = none →
    ∀ m ∈ n.preorder, m.Kind ≠ NodeKind.Heading
  | .mk k s cs, h => by
    rw [find_first_title.iter] at h
    rw [preorder_mk]
    cases hf : find_first_title.first cs with
    | some x => rw [hf] at h; simp at h
    | none =>
      rw [hf] at h
      by_cases hk : k = NodeKind.Heading
      · simp [hk] at h
      · intro m hm
        rcases List.mem_cons.1 hm with rfl | hm
        · exact hk
        · exact first_none cs hf m hm
theorem first_none : ∀ (cs : List Node), find_first_title.first cs = none →
    ∀ m ∈ preorderList cs, m.Kind ≠ NodeKind.Heading
  | [], _ => by simp [preorderList]
  | c :: next, h => by
    rw [find_first_title.first] at h
    rw [preorderList_cons]
    by_cases hc : c.Kind = NodeKind.Heading
    · simp [hc] at h
    · simp only [hc, if_false] at h
      cases hi : find_first_title.iter c with
      | some x => rw [hi] at h; simp at h
      | none =>
        rw [hi] at h
        intro m hm
        rcases List.mem_append.1 hm with hm | hm
        · exact iter_none c hi m hm
        · exact loop_none next h m hm
theorem loop_none : ∀ (l : List Node), find_first_title.loop l = none →
    ∀ m ∈ preorderList l, m.Kind ≠ NodeKind.Heading
  | [], _ => by simp [preorderList]
  | n :: next, h => by
    rw [find_first_title.loop] at h
    rw [preorderList_cons]
    cases hi : find_first_title.iter n with
    | some x => rw [hi] at h; simp at h
    | none =>
      rw [hi] at h
      intro m hm
      rcases List.mem_append.1 hm with hm | hm
      · exact iter_none n hi m hm
      · exact loop_none next h m hm
end

theorem iter_eq_none_of (n : Node) (h : ∀ m ∈ n.preorder, m.Kind ≠ NodeKind.Heading) :
    find_first_title.iter n = none := by
  cases hi : find_first_title.iter n with
  | none => rfl
  | some r => exact absurd (iter_some n r hi).2 (h r (iter_some n r hi).1)

theorem first_eq_none_of (cs : List Node)
    (h : ∀ m ∈ preorderList cs, m.Kind ≠ NodeKind.Heading) :
    find_first_title.first cs = none := by
  cases hi : find_first_title.first cs with
  | none => rfl
  | some r => exact absurd (first_some cs r hi).2 (h r (first_some cs r hi).1)

theorem loop_eq_none_of (l : List Node)
    (h : ∀ m ∈ preorderList l, m.Kind ≠ NodeKind.Heading) :
    find_first_title.loop l = none := by
  cases hi : find_first_title.loop l with
  | none => rfl
  | some r => exact absurd (loop_some l r hi).2 (h r (loop_some l r hi).1)

theorem find_first_title_some (root r : Node) (h : find_first_title root [] = some r) :
    r ∈ root.preorder ∧ r.Kind = NodeKind.Heading := by
  unfold find_first_title at h
  by_cases hk : root.Kind = NodeKind.Heading
  · rw [if_pos hk] at h
    simp only [Option.some.injEq] at h
    subst h
    exact ⟨mem_preorder_self _, hk⟩
  · rw [if_neg hk] at h
    cases hi : find_first_title.iter root with
    | some x =>
      rw [hi] at h
      simp only [Option.some.injEq] at h
      subst h
      exact iter_some root x hi
    | none =>
      rw [hi] at h
      simp [find_first_title.loop] at h

theorem find_first_title_none (root : Node) (h : find_first_title root [] = none) :
    ∀ m ∈ root.preorder, m.Kind ≠ NodeKind.Heading := by
  unfold find_first_title at h
  by_cases hk : root.Kind = NodeKind.Heading
  · rw [if_pos hk] at h; simp at h
  · rw [if_neg hk] at h
    cases hi : find_first_title.iter root with
    | some x => rw [hi] at h; simp at h
    | none => exact iter_none root hi

theorem find_first_title_eq_none_of (root : Node)
    (h : ∀ m ∈ root.preorder, m.Kind ≠ NodeKind.Heading) :
    find_first_title root [] = none := by
  cases hi : find_first_title root [] with
  | none => rfl
  | some r =>
    exact absurd (find_first_title_some root r hi).2 (h r (find_first_title_some root r hi).1)

theorem firstHeading_cons_pos (n : Node) (l : List Node) (h : n.Kind = NodeKind.Heading) :
    firstHeading (n :: l) = some n := by
  simp [firstHeading, Node.isHeading, h]

theorem firstHeading_cons_neg (n : Node) (l : List Node) (h : n.Kind ≠ NodeKind.Heading) :
    firstHeading (n :: l) = firstHeading l := by
  simp [firstHeading, Node.isHeading, h]

theorem firstHeading_append (l₁ l₂ : List Node) :
    firstHeading (l₁ ++ l₂) = (firstHeading l₁).or (firstHeading l₂) := by
  simp [firstHeading, List.find?_append]

mutual
theorem iter_flat : ∀ (n : Node), FlatIn n.preorder →
    find_first_title.iter n = firstHeading n.preorder
  | .mk k s cs, h => by
    rw [find_first_title.iter, preorder_mk]
    rw [preorder_mk] at h
    by_cases hk : k = NodeKind.Heading
    · have hno := h (.mk k s cs) (List.mem_cons_self _ _) hk
      rw [first_eq_none_of cs hno, if_pos hk, firstHeading_cons_pos (.mk k s cs) _ hk]
    · rw [firstHeading_cons_neg (.mk k s cs) _ hk, if_neg hk]
      have := first_flat cs (fun m hm => h m (List.mem_cons_of_mem _ hm))
      rw [this]
      cases firstHeading (preorderList cs) <;> rfl
theorem first_flat : ∀ (cs : List Node), FlatIn (preorderList cs) →
    find_first_title.first cs = firstHeading (preorderList cs)
  | [], _ => by simp [find_first_title.first, preorderList, firstHeading]
  | c :: next, h => by
    rw [find_first_title.first, preorderList_cons, firstHeading_append]
    rw [preorderList_cons] at h
    by_cases hc : c.Kind = NodeKind.Heading
    · rw [if_pos hc, preorder_eq c, firstHeading_cons_pos _ _ hc]; rfl
    · rw [if_neg hc, iter_flat c (fun m hm => h m (List.mem_append_left _ hm)),
        loop_flat next (fun m hm => h m (List.mem_append_right _ hm))]
      cases firstHeading c.preorder <;> rfl
theorem loop_flat : ∀ (l : List Node), FlatIn (preorderList l) →
    find_first_title.loop l = firstHeading (preorderList l)
  | [], _ => by simp [find_first_title.loop, preorderList, firstHeading]
  | n :: next, h => by
    rw [find_first_title.loop, preorderList_cons, firstHeading_append]
    rw [preorderList_cons] at h
    rw [iter_flat n (fun m hm => h m (List.mem_append_left _ hm)),
      loop_flat next (fun m hm => h m (List.mem_append_right _ hm))]
    cases firstHeading n.preorder <;> rfl
end

theorem find_first_title_flat (root : Node) (h : HeadingsFlat root) :
    find_first_title root [] = firstHeading root.preorder := by
  unfold find_first_title
  by_cases hk : root.Kind = NodeKind.Heading
  · rw [if_pos hk, preorder_eq root, firstHeading_cons_pos _ _ hk]
  · rw [if_neg hk, iter_flat root h]
    cases firstHeading root.preorder <;> rfl

theorem loop_skip (pre rest : List Node)
    (h : ∀ m ∈ preorderList pre, m.Kind ≠ NodeKind.Heading) :
    find_first_title.loop (pre ++ rest) = find_first_title.loop rest := by
  induction pre with
  | nil => rfl
  | cons p pre ih =>
    rw [preorderList_cons] at h
    rw [List.cons_append, find_first_title.loop,
      iter_eq_none_of p (fun m hm => h m (List.mem_append_left _ hm))]
    exact ih (fun m hm => h m (List.mem_append_right _ hm))

theorem loop_hit (c : Node) (post : List Node)
    (hc : ∃ m ∈ c.preorder, m.Kind = NodeKind.Heading) :
    ∃ r, find_first_title.loop (c :: post) = some r ∧ r ∈ c.preorder ∧
      r.Kind = NodeKind.Heading := by
  rw [find_first_title.loop]
  cases hi : find_first_title.iter c with
  | none =>
    obtain ⟨m, hm, hk⟩ := hc
    exact absurd hk (iter_none c hi m hm)
  | some r => exact ⟨r, rfl, iter_some c r hi⟩

theorem first_hit (pre : List Node) (c : Node) (post : List Node)
    (hpre : ∀ m ∈ preorderList pre, m.Kind ≠ NodeKind.Heading)
    (hc : ∃ m ∈ c.preorder, m.Kind = NodeKind.Heading) :
    ∃ r, find_first_title.first (pre ++ c :: post) = some r ∧ r ∈ c.preorder ∧
      r.Kind = NodeKind.Heading := by
  cases pre with
  | nil =>
    rw [List.nil_append, find_first_title.first]
    by_cases hk : c.Kind = NodeKind.Heading
    · exact ⟨c, by rw [if_pos hk], mem_preorder_self c, hk⟩
    · rw [if_neg hk]
      exact loop_hit c post hc
  | cons p pre =>
    rw [preorderList_cons] at hpre
    have hp : p.Kind ≠ NodeKind.Heading := hpre p (List.mem_append_left _ (mem_preorder_self p))
    rw [List.cons_append, find_first_title.first, if_neg hp,
      iter_eq_none_of p (fun m hm => hpre m (List.mem_append_left _ hm))]
    show ∃ r, find_first_title.loop (pre ++ c :: post) = some r ∧ _
    rw [loop_skip pre (c :: post) (fun m hm => hpre m (List.mem_append_right _ hm))]
    exact loop_hit c post hc

theorem find_first_title_earliest_child (k : NodeKind) (s : Str) (pre : List Node) (c : Node)
    (post : List Node) (hk : k ≠ NodeKind.Heading)
    (hpre : ∀ m ∈ preorderList pre, m.Kind ≠ NodeKind.Heading)
    (hc : ∃ m ∈ c.preorder, m.Kind = NodeKind.Heading) :
    ∃ r, find_first_title (.mk k s (pre ++ c :: post)) [] = some r ∧ r ∈ c.preorder ∧
      r.Kind = NodeKind.Heading := by
  obtain ⟨r, hr, hmem, hkind⟩ := first_hit pre c post hpre hc
  refine ⟨r, ?_, hmem, hkind⟩
  unfold find_first_title
  rw [if_neg (show (Node.mk k s (pre ++ c :: post)).Kind ≠ NodeKind.Heading from hk),
    find_first_title.iter, hr]

theorem process_file_title (sys : Sys) (w : World) (input_path output_path content : Str)
    (w1 : World) (fout : Str) (hread : os_ReadFile w input_path = .ok content)
    (hopen : os_OpenFile sys w output_path = .ok (w1, fout)) :
    (process_file sys w input_path output_path).2 =
      match find_first_title (sys.md.Parse content) [] with
      | some title_node => sys.md.Text title_node content
      | none => strings_TrimSuffix (path_Base input_path) MD_SUFFIX := by
  unfold process_file
  rw [hread]
  simp only [hopen]

/-! ## The claims on the title search -/

/-- C1: for every document tree the parser builds (its headings hold inline
nodes only, so no heading holds another heading), `find_first_title` applied
to the root returns the first heading of the depth-first pre-order walk
whenever there is one, and the title `process_file` returns for a document
parsed to that tree is that node's text. -/
theorem find_first_title_first_in_preorder (root : Node) (hflat : HeadingsFlat root)
    (h : Node) (hfirst : firstHeading root.preorder = some h) :
    find_first_title root [] = some h ∧
      ∀ (sys : Sys) (w : World) (input_path output_path content : Str) (w1 : World)
        (fout : Str), sys.md.Parse content = root → os_ReadFile w input_path = .ok content →
        os_OpenFile sys w output_path = .ok (w1, fout) →
        (process_file sys w input_path output_path).2 = sys.md.Text h content := by
  have hfind : find_first_title root [] = some h := by
    rw [find_first_title_flat root hflat, hfirst]
  refine ⟨hfind, ?_⟩
  intro sys w input_path output_path content w1 fout hparse hread hopen
  rw [process_file_title sys w input_path output_path content w1 fout hread hopen, hparse,
    hfind]

/-- C1, a concrete instance: in the blockquote document no heading is nested
in a heading, and the search returns the quoted heading `H1`. -/
theorem find_first_title_first_in_preorder_witness :
    HeadingsFlat doc_blockquote ∧ firstHeading doc_blockquote.preorder = some (heading "H1") ∧
      find_first_title doc_blockquote [] = some (heading "H1") :=
  ⟨by decide, rfl,
    (find_first_title_first_in_preorder doc_blockquote (by decide) (heading "H1") rfl).1⟩

/-- Why the search is stated on the parser's trees: on a hand-built tree in
which the heading `A` (not a first child) holds the heading `B`, the first
heading of the pre-order walk is `A` and the search returns `B`, since the
loop looks into a later sibling before testing the sibling itself. -/
theorem find_first_title_not_preorder :
    (firstHeading doc_heading_in_heading.preorder).map Node.Segment = some "A".toList ∧
      (find_first_title doc_heading_in_heading []).map Node.Segment = some "B".toList ∧
      find_first_title doc_heading_in_heading [] ≠
        firstHeading doc_heading_in_heading.preorder := by
  refine ⟨by decide, by decide, ?_⟩
  intro h
  have h2 := congrArg (Option.map Node.Segment) h
  revert h2
  decide

/-- C2: `find_first_title` applied to the root returns none exactly when no
node of the tree is a heading; a node it returns is a heading of the tree; and
the heading nested three levels deep is found. -/
theorem find_first_title_none_iff_no_heading (root : Node) :
    (find_first_title root [] = none ↔ ∀ m ∈ root.preorder, m.Kind ≠ NodeKind.Heading) ∧
      (∀ r, find_first_title root [] = some r →
        r.Kind = NodeKind.Heading ∧ r ∈ root.preorder) ∧
      find_first_title doc_deep [] = some (heading "Deep") :=
  ⟨⟨find_first_title_none root, find_first_title_eq_none_of root⟩,
    fun r hr => ⟨(find_first_title_some root r hr).2, (find_first_title_some root r hr).1⟩,
    rfl⟩

/-- C3: for a root that is not a heading, with children `pre ++ c :: post`
where no subtree of `pre` holds a heading and the subtree of `c` holds one (so
`c` is the earliest such child), `find_first_title` returns a heading of the
subtree of `c`, whatever `post` holds. -/
theorem find_first_title_tie_break (k : NodeKind) (s : Str) (pre : List Node) (c : Node)
    (post : List Node) (hk : k ≠ NodeKind.Heading)
    (hpre : ∀ m ∈ preorderList pre, m.Kind ≠ NodeKind.Heading)
    (hc : ∃ m ∈ c.preorder, m.Kind = NodeKind.Heading) :
    ∃ r, find_first_title (.mk k s (pre ++ c :: post)) [] = some r ∧ r ∈ c.preorder ∧
      r.Kind = NodeKind.Heading :=
  find_first_title_earliest_child k s pre c post hk hpre hc

/-- C3, a concrete instance: the heading inside the blockquote wins over the
later top-level heading. -/
theorem find_first_title_tie_break_witness :
    find_first_title doc_blockquote [] = some (heading "H1") ∧
      ∃ r, find_first_title
          (.mk .Document [] ([para "intro"] ++ .mk .Blockquote [] [heading "H1"] :: [heading "H2"]))
          [] = some r ∧
        r ∈ (Node.mk .Blockquote [] [heading "H1"]).preorder ∧ r.Kind = NodeKind.Heading :=
  ⟨rfl, find_first_title_tie_break .Document [] [para "intro"]
    (.mk .Blockquote [] [heading "H1"]) [heading "H2"] (by decide) (by decide)
    ⟨heading "H1", by
      rw [preorder_mk, preorderList_cons]
      exact List.mem_cons_of_mem _ (List.mem_append_left _ (mem_preorder_self _)), rfl⟩⟩

/-! ## Theorems: strings and paths -/

theorem hasSuffix_iff (s suffix : Str) :
    strings_HasSuffix s suffix = true ↔ ∃ t, s = t ++ suffix := by
  unfold strings_HasSuffix
  rw [List.isSuffixOf_iff_suffix]
  constructor
  · rintro ⟨t, ht⟩; exact ⟨t, ht.symm⟩
  · rintro ⟨t, ht⟩; exact ⟨t, ht.symm⟩

theorem trimSuffix_append (t suffix : Str) :
    strings_TrimSuffix (t ++ suffix) suffix = t := by
  unfold strings_TrimSuffix
  rw [if_pos ((hasSuffix_iff _ _).2 ⟨t, rfl⟩)]
  simp

theorem trimSuffix_eq (s suffix : Str) (h : strings_HasSuffix s suffix = true) :
    s = strings_TrimSuffix s suffix ++ suffix := by
  obtain ⟨t, rfl⟩ := (hasSuffix_iff _ _).1 h
  rw [trimSuffix_append]

theorem splitSlash_ne_nil (s : Str) : splitSlash s ≠ [] := by
  cases s with
  | nil => simp [splitSlash]
  | cons c cs =>
    unfold splitSlash
    split_ifs
    · simp
    · split <;> simp

theorem splitSlash_no_slash (s : Str) (h : '/' ∉ s) : splitSlash s = [s] := by
  induction s with
  | nil => rfl
  | cons c cs ih =>
    have hc : c ≠ '/' := fun e => h (e ▸ List.mem_cons_self _ _)
    have hcs : '/' ∉ cs := fun e => h (List.mem_cons_of_mem _ e)
    rw [splitSlash, if_neg hc, ih hcs]

theorem splitSlash_append (a b : Str) (h : '/' ∉ a) :
    splitSlash (a ++ '/' :: b) = a :: splitSlash b := by
  induction a with
  | nil => simp [splitSlash]
  | cons c cs ih =>
    have hc : c ≠ '/' := fun e => h (e ▸ List.mem_cons_self _ _)
    have hcs : '/' ∉ cs := fun e => h (List.mem_cons_of_mem _ e)
    rw [List.cons_append, splitSlash, if_neg hc, ih hcs]

theorem path_Clean_two (a b : Str) (ha : GoodName a) (hb : GoodName b) :
    path_Clean (a ++ '/' :: b) = a ++ '/' :: b := by
  obtain ⟨ha0, ha1, ha2, ha3⟩ := ha
  obtain ⟨hb0, hb1, hb2, hb3⟩ := hb
  have ha2' : a ≠ ['.'] := ha2
  have ha3' : a ≠ ['.', '.'] := ha3
  have hb2' : b ≠ ['.'] := hb2
  have hb3' : b ≠ ['.', '.'] := hb3
  have hroot : ((a ++ '/' :: b).head? = some '/') = False := by
    cases a with
    | nil => exact absurd rfl ha0
    | cons c cs =>
      have hc : c ≠ '/' := fun e => ha1 (e ▸ List.mem_cons_self _ _)
      simp [hc]
  unfold path_Clean
  simp only [hroot, splitSlash_append a b ha1, splitSlash_no_slash b hb1]
  simp [List.filter, ha0, ha2', hb0, hb2', cleanStep, ha3', hb3', List.intercalate]

theorem path_Join_two (a b : Str) (ha : GoodName a) (hb : GoodName b) :
    path_Join [a, b] = a ++ '/' :: b := by
  have hlen : ¬ ((([a, b] : List Str).map List.length).sum = 0) := by
    simp; intro h0; exact absurd h0 ha.1
  unfold path_Join
  rw [if_neg hlen]
  have hbuf : joinBuf [] [a, b] = a ++ '/' :: b := by
    simp [joinBuf, ha.1]
  rw [hbuf, path_Clean_two a b ha hb]

theorem splitSlash_join (a b : Str) (ha : GoodName a) (hb : GoodName b) :
    splitSlash (path_Join [a, b]) = [a, b] := by
  rw [path_Join_two a b ha hb, splitSlash_append a b ha.2.1, splitSlash_no_slash b hb.2.1]

theorem splitSlash_append_any (a b : Str) :
    splitSlash (a ++ '/' :: b) = splitSlash a ++ splitSlash b := by
  induction a with
  | nil => simp [splitSlash]
  | cons c cs ih =>
    rw [List.cons_append, splitSlash, splitSlash, ih]
    by_cases hc : c = '/'
    · rw [if_pos hc, if_pos hc]; rfl
    · rw [if_neg hc, if_neg hc]
      cases hs : splitSlash cs with
      | nil => exact absurd hs (splitSlash_ne_nil cs)
      | cons h t => rfl

theorem path_Base_two (a b : Str) (hb0 : b ≠ []) (hb1 : '/' ∉ b) :
    path_Base (a ++ '/' :: b) = b := by
  unfold path_Base
  have hne : a ++ '/' :: b ≠ [] := by simp
  rw [if_neg hne]
  have hlast : ∃ l x, b = l ++ [x] ∧ x ≠ '/' := by
    refine ⟨b.dropLast, b.getLast hb0, (List.dropLast_append_getLast hb0).symm, ?_⟩
    intro e
    exact hb1 (e ▸ List.getLast_mem hb0)
  obtain ⟨l, x, hb, hx⟩ := hlast
  have hstrip : ((a ++ '/' :: b).reverse.dropWhile (fun c => c = '/')).reverse = a ++ '/' :: b := by
    rw [hb]
    simp [List.dropWhile, hx]
  have hsplit : (splitSlash (a ++ '/' :: b)).getLastD [] = b := by
    rw [splitSlash_append_any, splitSlash_no_slash b hb1]
    simp
  simp only [hstrip, hsplit]
  rw [if_neg hb0]

theorem digitChar_ne_slash (k : Nat) (hk : k < 10) : Nat.digitChar k ≠ '/' := by
  interval_cases k <;> decide

theorem toDigitsCore_no_slash : ∀ (fuel n : Nat) (ds : List Char),
    '/' ∉ ds → '/' ∉ Nat.toDigitsCore 10 fuel n ds
  | 0, _, ds, h => by simpa [Nat.toDigitsCore] using h
  | fuel + 1, n, ds, h => by
    have hd : '/' ∉ Nat.digitChar (n % 10) :: ds := by
      intro e
      rcases List.mem_cons.1 e with e | e
      · exact digitChar_ne_slash _ (Nat.mod_lt _ (by decide)) e.symm
      · exact h e
    unfold Nat.toDigitsCore
    dsimp only
    split_ifs
    · exact hd
    · exact toDigitsCore_no_slash fuel _ _ hd

theorem appendInt_no_slash (n width : Nat) : '/' ∉ appendInt n width := by
  unfold appendInt
  intro e
  rcases List.mem_append.1 e with e | e
  · have := List.eq_of_mem_replicate e
    revert this; decide
  · exact toDigitsCore_no_slash _ _ [] (by simp) e

theorem format_no_slash (t : Time) : '/' ∉ t.Format := by
  unfold Time.Format
  simp only [List.mem_append, not_or]
  refine ⟨⟨⟨⟨⟨⟨?_, ?_⟩, ?_⟩, ?_⟩, ?_⟩, ?_⟩, ?_⟩ <;>
    first
      | exact appendInt_no_slash _ _
      | decide

theorem goodName_of_long (n : Str) (hlen : 3 ≤ n.length) (hs : '/' ∉ n) : GoodName n := by
  refine ⟨?_, hs, ?_, ?_⟩
  · intro e; rw [e] at hlen; simp at hlen
  · intro e; rw [e] at hlen; revert hlen; decide
  · intro e; rw [e] at hlen; revert hlen; decide

theorem goodName_of_md (n : Str) (hmd : strings_HasSuffix n MD_SUFFIX = true)
    (hs : '/' ∉ n) : GoodName n := by
  obtain ⟨t, rfl⟩ := (hasSuffix_iff _ _).1 hmd
  refine goodName_of_long _ ?_ hs
  rw [List.length_append]
  have : MD_SUFFIX.length = 3 := by decide
  omega

theorem trimSuffix_no_slash (n suffix : Str) (hs : '/' ∉ n) :
    '/' ∉ strings_TrimSuffix n suffix := by
  unfold strings_TrimSuffix
  split_ifs
  · exact fun e => hs (List.mem_of_mem_take e)
  · exact hs

theorem goodName_html (n : Str) (hs : '/' ∉ n) :
    GoodName (strings_TrimSuffix n MD_SUFFIX ++ HTML_SUFFIX) := by
  refine goodName_of_long _ ?_ ?_
  · rw [List.length_append]
    have : HTML_SUFFIX.length = 5 := by decide
    omega
  · intro e
    rcases List.mem_append.1 e with e | e
    · exact trimSuffix_no_slash n _ hs e
    · revert e; decide

theorem goodName_promoted (t : Time) (n : Str) (hn : GoodName n) :
    GoodName (t.Format ++ "--".toList ++ n) := by
  refine goodName_of_long _ ?_ ?_
  · simp only [List.length_append]
    have h2 : ("--".toList).length = 2 := by decide
    have h1 : 0 < n.length := List.length_pos.2 hn.1
    omega
  · intro e
    rcases List.mem_append.1 e with e | e
    · rcases List.mem_append.1 e with e | e
      · exact format_no_slash t e
      · revert e; decide
    · exact hn.2.1 e

/-! ## Theorems: the system calls -/

theorem os_OpenFile_ok (sys : Sys) (w : World) (p : Str) (w1 : World) (fout : Str)
    (h : os_OpenFile sys w p = .ok (w1, fout)) :
    sys.open_err p = none ∧ splitSlash p = [PUBLISH_DIR, fout] ∧
      w1 = { w with publish := fun q => if q = fout then some [] else w.publish q } := by
  unfold os_OpenFile at h
  cases he : sys.open_err p with
  | some err => rw [he] at h; simp at h
  | none =>
    simp only [he] at h
    refine ⟨rfl, ?_⟩
    split at h
    · rename_i d n hs
      split_ifs at h with hd
      · simp only [Except.ok.injEq, Prod.mk.injEq] at h
        obtain ⟨h1, h2⟩ := h
        subst h2
        exact ⟨by rw [hs, hd], h1.symm⟩
    · simp at h

theorem os_OpenFile_eq (sys : Sys) (w : World) (p n : Str) (he : sys.open_err p = none)
    (hs : splitSlash p = [PUBLISH_DIR, n]) :
    os_OpenFile sys w p =
      .ok ({ w with publish := fun q => if q = n then some [] else w.publish q }, n) := by
  unfold os_OpenFile
  rw [he]
  simp only [hs, if_true]

theorem os_OpenFile_err (sys : Sys) (w : World) (p err : Str)
    (he : sys.open_err p = some err) : os_OpenFile sys w p = .error err := by
  unfold os_OpenFile
  rw [he]

theorem os_ReadFile_article (w : World) (n : Str) (hn : GoodName n) :
    os_ReadFile w (path_Join [ARTICLE_DIR, n]) =
      match lookupEntry w.article n with
      | some e => e.Data
      | none => .error ("open ".toList ++ path_Join [ARTICLE_DIR, n] ++
          ": no such file or directory".toList) := by
  unfold os_ReadFile
  simp only [splitSlash_join ARTICLE_DIR n (by decide) hn, if_true]

theorem os_Rename_ok (sys : Sys) (w : World) (oldpath newpath : Str) (w2 : World)
    (h : os_Rename sys w oldpath newpath = .ok w2) :
    sys.rename_err oldpath newpath = none ∧
      ∃ n1 n2 e, splitSlash oldpath = [DRAFT_DIR, n1] ∧ splitSlash newpath = [ARTICLE_DIR, n2] ∧
        lookupEntry w.draft n1 = some e ∧
        w2 = { w with
                draft := w.draft.filter (fun x => decide (x.Name ≠ n1))
                article := { e with Name := n2 } ::
                  w.article.filter (fun x => decide (x.Name ≠ n2)) } := by
  unfold os_Rename at h
  cases he : sys.rename_err oldpath newpath with
  | some err => rw [he] at h; simp at h
  | none =>
    simp only [he] at h
    refine ⟨rfl, ?_⟩
    split at h
    · rename_i d1 n1 d2 n2 hs1 hs2
      split_ifs at h with hd
      · cases hl : lookupEntry w.draft n1 with
        | none => rw [hl] at h; simp at h
        | some e =>
          rw [hl] at h
          simp only [Except.ok.injEq] at h
          exact ⟨n1, n2, e, by rw [hs1, hd.1], by rw [hs2, hd.2], hl, h.symm⟩
    · simp at h

theorem os_OpenFile_cases (sys : Sys) (p : Str) :
    (∃ err, ∀ w, os_OpenFile sys w p = .error err) ∨
      (∃ n, ∀ w, os_OpenFile sys w p =
        .ok ({ w with publish := fun q => if q = n then some [] else w.publish q }, n)) := by
  cases he : sys.open_err p with
  | some err => exact Or.inl ⟨err, fun w => os_OpenFile_err sys w p err he⟩
  | none =>
    unfold os_OpenFile
    simp only [he]
    split
    · rename_i d n hs
      by_cases hd : d = PUBLISH_DIR
      · exact Or.inr ⟨n, fun w => by rw [if_pos hd]⟩
      · exact Or.inl ⟨_, fun w => by rw [if_neg hd]⟩
    · exact Or.inl ⟨_, fun w => rfl⟩

/-! ## Theorems: `process_file` and `process_article` -/

theorem process_file_fields (sys : Sys) (w : World) (input_path output_path : Str) :
    (process_file sys w input_path output_path).1.draft = w.draft ∧
      (process_file sys w input_path output_path).1.article = w.article ∧
      (process_file sys w input_path output_path).1.article_list = w.article_list ∧
      (process_file sys w input_path output_path).1.renames = w.renames := by
  unfold process_file
  cases os_ReadFile w input_path with
  | error err => exact ⟨rfl, rfl, rfl, rfl⟩
  | ok content =>
    rcases os_OpenFile_cases sys output_path with ⟨err, h⟩ | ⟨n, h⟩
    · simp [h w, Printf]
    · simp [h w, File_Write]

theorem process_file_rel (sys : Sys) (a b : World) (input_path output_path : Str)
    (hread : os_ReadFile a input_path = os_ReadFile b input_path) :
    (process_file sys a input_path output_path).2 =
        (process_file sys b input_path output_path).2 ∧
      ∀ q, (process_file sys b input_path output_path).1.publish q =
            (process_file sys a input_path output_path).1.publish q ∨
          ((process_file sys b input_path output_path).1.publish q = b.publish q ∧
            (process_file sys a input_path output_path).1.publish q = a.publish q) := by
  unfold process_file
  rw [hread]
  cases os_ReadFile b input_path with
  | error err => exact ⟨rfl, fun q => Or.inr ⟨rfl, rfl⟩⟩
  | ok content =>
    rcases os_OpenFile_cases sys output_path with ⟨err, h⟩ | ⟨n, h⟩
    · simp only [h a, h b]
      refine ⟨trivial, fun q => Or.inr ⟨rfl, rfl⟩⟩
    · simp only [h a, h b]
      refine ⟨trivial, fun q => ?_⟩
      by_cases hq : q = n
      · left; simp [File_Write, hq]
      · right; simp [File_Write, hq]

theorem process_article_body_fields (sys : Sys) (w : World) (ent : DirEntry) :
    (process_article_body sys w ent).draft = w.draft ∧
      (process_article_body sys w ent).article = w.article ∧
      (process_article_body sys w ent).renames = w.renames := by
  unfold process_article_body
  split_ifs
  · exact ⟨rfl, rfl, rfl⟩
  · have h := process_file_fields sys w (path_Join [ARTICLE_DIR, ent.Name])
      (path_Join [PUBLISH_DIR, strings_TrimSuffix ent.Name MD_SUFFIX ++ HTML_SUFFIX])
    exact ⟨h.1, h.2.1, h.2.2.2⟩

theorem process_article_body_list (sys : Sys) (w : World) (ent : DirEntry) :
    (process_article_body sys w ent).article_list =
      if strings_HasSuffix ent.Name MD_SUFFIX then
        w.article_list ++
          [⟨(process_file sys w (path_Join [ARTICLE_DIR, ent.Name])
              (path_Join [PUBLISH_DIR,
                strings_TrimSuffix ent.Name MD_SUFFIX ++ HTML_SUFFIX])).2,
            strings_TrimSuffix ent.Name MD_SUFFIX ++ HTML_SUFFIX⟩]
      else w.article_list := by
  unfold process_article_body
  by_cases hmd : strings_HasSuffix ent.Name MD_SUFFIX = true
  · have h := process_file_fields sys w (path_Join [ARTICLE_DIR, ent.Name])
      (path_Join [PUBLISH_DIR, strings_TrimSuffix ent.Name MD_SUFFIX ++ HTML_SUFFIX])
    simp [hmd, Printf, h.2.2.1]
  · simp [hmd, Printf]

theorem process_article_loop_fields (sys : Sys) (articles : List DirEntry) (w : World) :
    (process_article_loop sys articles w).draft = w.draft ∧
      (process_article_loop sys articles w).article = w.article ∧
      (process_article_loop sys articles w).renames = w.renames := by
  induction articles generalizing w with
  | nil => exact ⟨rfl, rfl, rfl⟩
  | cons ent rest ih =>
    rw [process_article_loop]
    have h1 := ih (process_article_body sys w ent)
    have h2 := process_article_body_fields sys w ent
    exact ⟨h1.1.trans h2.1, h1.2.1.trans h2.2.1, h1.2.2.trans h2.2.2⟩

theorem process_article_loop_urls (sys : Sys) (articles : List DirEntry) (w : World) :
    (process_article_loop sys articles w).article_list.map article_entry.Url =
      w.article_list.map article_entry.Url ++
        ((articles.map DirEntry.Name).filter (fun n => strings_HasSuffix n MD_SUFFIX)).map
          (fun n => strings_TrimSuffix n MD_SUFFIX ++ HTML_SUFFIX) := by
  induction articles generalizing w with
  | nil => simp [process_article_loop]
  | cons ent rest ih =>
    rw [process_article_loop, ih, process_article_body_list]
    by_cases hmd : strings_HasSuffix ent.Name MD_SUFFIX = true
    · simp [hmd, List.filter]
    · simp [hmd, List.filter]

theorem process_index_page (sys : Sys) (w : World)
    (hopen : sys.open_err (path_Join [PUBLISH_DIR, INDEX_HTML]) = none) :
    (process_index sys w).publish INDEX_HTML =
      some (template_header sys.esc (some ⟨"microblog".toList⟩) ++
        template_list sys.esc w.article_list ++ template_footer) := by
  unfold process_index
  have hs : splitSlash (path_Join [PUBLISH_DIR, INDEX_HTML]) =
      [PUBLISH_DIR, INDEX_HTML] := by decide
  simp only [os_OpenFile_eq sys w _ _ hopen hs]
  simp [File_Write]

/-! ## The claims on `process_article` and `process_file` -/

set_option maxRecDepth 100000

/-- C7: starting from an empty registry, the `Url` fields of `article_list`
after the loop of `process_article` are the names of the listing that end in
`.md`, in listing order, each with `.md` replaced by `.html`; and the index
page `process_index` then writes is the header titled `microblog`, an `ul`
holding one `li` link per registry entry (its `Url` as `href`, its `Title` as
text) in registry order, and the footer. -/
theorem process_article_registry_order (sys : Sys) (articles : List DirEntry) (w : World)
    (hempty : w.article_list = []) :
    (process_article_loop sys articles w).article_list.map article_entry.Url =
        ((articles.map DirEntry.Name).filter (fun n => strings_HasSuffix n MD_SUFFIX)).map
          (fun n => strings_TrimSuffix n MD_SUFFIX ++ HTML_SUFFIX) ∧
      (sys.open_err (path_Join [PUBLISH_DIR, INDEX_HTML]) = none →
        (process_index sys (process_article_loop sys articles w)).publish INDEX_HTML =
          some ("<!DOCTYPE html>\n<html>\n<head>\n\t<meta charset=\"UTF-8\">\n\t<title>".toList ++
            sys.esc.rcdata "microblog".toList ++
            "</title>\n\t<meta name=\"viewport\" content=\"width=device-width, initial-scale=1\" />\n</head>\n<body>\n".toList ++
            ("\n<ul>\n".toList ++
              ((process_article_loop sys articles w).article_list.map
                (fun e => "\n\t<li><a href=\"".toList ++ sys.esc.url e.Url ++ "\">".toList ++
                  sys.esc.html e.Title ++ "</a></li>\n".toList)).flatten ++
              "\n</ul>\n".toList) ++
            "\n<hr>\n<footer>\n<p><small>Powered by <a href=\"https://github.com/Inndy/microblog\">microblog</a></small></p>\n</footer>\n</body>\n</html>\n".toList)) := by
  refine ⟨?_, fun hopen => (process_index_page sys _ hopen).trans rfl⟩
  rw [process_article_loop_urls, hempty]
  rfl

/-- C7, a concrete instance: the listing `b.md`, `a.md` gives `b.html`,
`a.html` in that order, and the index page links `b.html` before `a.html`. -/
theorem process_article_registry_order_witness :
    (world [] []).article_list = [] ∧
      (process_article_loop ok_sys [file "b.md" "# B", file "a.md" "# A"]
        (world [] [file "a.md" "# A", file "b.md" "# B"])).article_list =
        [⟨"B".toList, "b.html".toList⟩, ⟨"A".toList, "a.html".toList⟩] ∧
      (process_article_loop ok_sys [file "b.md" "# B", file "a.md" "# A"]
        (world [] [file "a.md" "# A", file "b.md" "# B"])).article_list.map article_entry.Url =
        ["b.html".toList, "a.html".toList] ∧
      (process_index ok_sys (process_article_loop ok_sys [file "b.md" "# B", file "a.md" "# A"]
        (world [] [file "a.md" "# A", file "b.md" "# B"]))).publish INDEX_HTML =
        some ("<!DOCTYPE html>\n<html>\n<head>\n\t<meta charset=\"UTF-8\">\n\t<title>microblog</title>\n\t<meta name=\"viewport\" content=\"width=device-width, initial-scale=1\" />\n</head>\n<body>\n\n<ul>\n\n\t<li><a href=\"b.html\">B</a></li>\n\n\t<li><a href=\"a.html\">A</a></li>\n\n</ul>\n\n<hr>\n<footer>\n<p><small>Powered by <a href=\"https://github.com/Inndy/microblog\">microblog</a></small></p>\n</footer>\n</body>\n</html>\n".toList) :=
  ⟨rfl, by decide,
    (process_article_registry_order ok_sys [file "b.md" "# B", file "a.md" "# A"]
      (world [] [file "a.md" "# A", file "b.md" "# B"]) rfl).1.trans (by decide),
    ((process_article_registry_order ok_sys [file "b.md" "# B", file "a.md" "# A"]
      (world [] [file "a.md" "# A", file "b.md" "# B"]) rfl).2 (by decide)).trans rfl⟩

theorem process_file_open_error (sys : Sys) (w : World) (input_path output_path content err : Str)
    (hread : os_ReadFile w input_path = .ok content)
    (hopen : sys.open_err output_path = some err) :
    process_file sys w input_path output_path =
      (Printf w ("ERROR: can not open output file ".toList ++ sys.quote output_path ++
        ": ".toList ++ err), []) := by
  unfold process_file
  rw [hread]
  simp only [os_OpenFile_err sys w output_path err hopen]

/-- C4 (what the code does): when the output file of a markdown entry cannot be
opened, `process_article` still appends a registry entry for it, with an empty
title, writes no page, and prints `generated` after the error line. -/
theorem process_article_registers_unopened (sys : Sys) (w : World) (ent : DirEntry)
    (content err : Str) (hmd : strings_HasSuffix ent.Name MD_SUFFIX = true)
    (hread : os_ReadFile w (path_Join [ARTICLE_DIR, ent.Name]) = .ok content)
    (hopen : sys.open_err
      (path_Join [PUBLISH_DIR, strings_TrimSuffix ent.Name MD_SUFFIX ++ HTML_SUFFIX]) =
        some err) :
    (process_article_body sys w ent).article_list =
        w.article_list ++ [⟨[], strings_TrimSuffix ent.Name MD_SUFFIX ++ HTML_SUFFIX⟩] ∧
      (process_article_body sys w ent).publish = w.publish ∧
      (process_article_body sys w ent).console =
        w.console ++
          ["ERROR: can not open output file ".toList ++
              sys.quote (path_Join [PUBLISH_DIR,
                strings_TrimSuffix ent.Name MD_SUFFIX ++ HTML_SUFFIX]) ++ ": ".toList ++ err,
            "generated ".toList ++
              path_Join [PUBLISH_DIR, strings_TrimSuffix ent.Name MD_SUFFIX ++ HTML_SUFFIX] ++
              "\n".toList] := by
  unfold process_article_body
  simp only [hmd, Bool.not_true, Bool.false_eq_true, if_false,
    process_file_open_error sys w _ _ content err hread hopen]
  simp [Printf]

/-- C4, a concrete instance: `broken.md` is readable, `publish/broken.html`
cannot be opened, and the registry of the build lists `broken.html` with an
empty title next to the article that was written. -/
theorem process_article_registers_unopened_witness :
    (process_article_body broken_sys (world [] [file "broken.md" "# B", file "good.md" "# G"])
        (file "broken.md" "# B")).article_list = [⟨[], "broken.html".toList⟩] ∧
      (process_article_loop broken_sys [file "broken.md" "# B", file "good.md" "# G"]
        (world [] [file "broken.md" "# B", file "good.md" "# G"])).article_list =
        [⟨[], "broken.html".toList⟩, ⟨"G".toList, "good.html".toList⟩] :=
  ⟨(process_article_registers_unopened broken_sys
      (world [] [file "broken.md" "# B", file "good.md" "# G"]) (file "broken.md" "# B")
      "# B".toList "permission denied".toList (by decide) rfl (by decide)).1.trans
      (by decide),
    by decide⟩

/-- C5 (what the code does): the page of the "article" template does not
depend on the title, since the header is executed with nil data; the page
written for an article titled `Hello` has an empty `<title>` element. -/
theorem article_page_ignores_title :
    (∀ (esc : Escaper) (t1 t2 content : Str),
        template_article esc ⟨⟨t1⟩, content⟩ = template_article esc ⟨⟨t2⟩, content⟩) ∧
      (process_file ok_sys (world [] [file "hello.md" "# Hello"]) "article/hello.md".toList
        "publish/hello.html".toList).2 = "Hello".toList ∧
      (process_file ok_sys (world [] [file "hello.md" "# Hello"]) "article/hello.md".toList
        "publish/hello.html".toList).1.publish "hello.html".toList =
        some ("<!DOCTYPE html>\n<html>\n<head>\n\t<meta charset=\"UTF-8\">\n\t<title></title>\n\t<meta name=\"viewport\" content=\"width=device-width, initial-scale=1\" />\n</head>\n<body>\n\n<a href=\"#\" onclick=\"history.back(); e.preventDefault();\">back</a>\n<article>\n<h1>Hello</h1>\n</article>\n\n<hr>\n<footer>\n<p><small>Powered by <a href=\"https://github.com/Inndy/microblog\">microblog</a></small></p>\n</footer>\n</body>\n</html>\n\n".toList) := by
  exact ⟨fun esc t1 t2 content => rfl, by decide, rfl⟩

/-- C8: for a readable article file `name` ending in `.md` whose output can be
opened and whose parsed tree holds no heading, the registry entry appended by
`process_article` and the title returned by `process_file` are `name` without
its `.md`, and so is the title for the same file under any directory. -/
theorem process_file_fallback_title (sys : Sys) (w : World) (ent : DirEntry) (content : Str)
    (hmd : strings_HasSuffix ent.Name MD_SUFFIX = true) (hname : '/' ∉ ent.Name)
    (hread : os_ReadFile w (path_Join [ARTICLE_DIR, ent.Name]) = .ok content)
    (hopen : sys.open_err
      (path_Join [PUBLISH_DIR, strings_TrimSuffix ent.Name MD_SUFFIX ++ HTML_SUFFIX]) = none)
    (hnone : ∀ m ∈ (sys.md.Parse content).preorder, m.Kind ≠ NodeKind.Heading) :
    (process_article_body sys w ent).article_list =
        w.article_list ++ [⟨strings_TrimSuffix ent.Name MD_SUFFIX,
          strings_TrimSuffix ent.Name MD_SUFFIX ++ HTML_SUFFIX⟩] ∧
      (process_file sys w (path_Join [ARTICLE_DIR, ent.Name])
        (path_Join [PUBLISH_DIR, strings_TrimSuffix ent.Name MD_SUFFIX ++ HTML_SUFFIX])).2 =
        strings_TrimSuffix ent.Name MD_SUFFIX ∧
      ∀ (dir output_path : Str) (w0 w1 : World) (fout : Str),
        os_ReadFile w0 (dir ++ '/' :: ent.Name) = .ok content →
        os_OpenFile sys w0 output_path = .ok (w1, fout) →
        (process_file sys w0 (dir ++ '/' :: ent.Name) output_path).2 =
          strings_TrimSuffix ent.Name MD_SUFFIX := by
  have hgood : GoodName ent.Name := goodName_of_md ent.Name hmd hname
  have hany : ∀ (dir output_path : Str) (w0 w1 : World) (fout : Str),
      os_ReadFile w0 (dir ++ '/' :: ent.Name) = .ok content →
      os_OpenFile sys w0 output_path = .ok (w1, fout) →
      (process_file sys w0 (dir ++ '/' :: ent.Name) output_path).2 =
        strings_TrimSuffix ent.Name MD_SUFFIX := by
    intro dir output_path w0 w1 fout hr ho
    rw [process_file_title sys w0 _ output_path content w1 fout hr ho,
      find_first_title_eq_none_of _ hnone, path_Base_two dir ent.Name hgood.1 hname]
  have hjoin : path_Join [ARTICLE_DIR, ent.Name] = ARTICLE_DIR ++ '/' :: ent.Name :=
    path_Join_two ARTICLE_DIR ent.Name (by decide) hgood
  have hout := splitSlash_join PUBLISH_DIR _ (by decide) (goodName_html ent.Name hname)
  have htitle : (process_file sys w (path_Join [ARTICLE_DIR, ent.Name])
      (path_Join [PUBLISH_DIR, strings_TrimSuffix ent.Name MD_SUFFIX ++ HTML_SUFFIX])).2 =
      strings_TrimSuffix ent.Name MD_SUFFIX := by
    rw [hjoin] at hread ⊢
    exact hany ARTICLE_DIR _ w _ _ hread (os_OpenFile_eq sys w _ _ hopen hout)
  refine ⟨?_, htitle, hany⟩
  rw [process_article_body_list, if_pos hmd, htitle]

/-- C8, a concrete instance: `notes.md` holds no heading and its title is
`notes`. -/
theorem process_file_fallback_title_witness :
    (process_article_body ok_sys (world [] [file "notes.md" "plain text"])
        (file "notes.md" "plain text")).article_list =
      [⟨"notes".toList, "notes.html".toList⟩] :=
  (process_file_fallback_title ok_sys (world [] [file "notes.md" "plain text"])
    (file "notes.md" "plain text") "plain text".toList (by decide) (by decide) rfl
    (by decide) (by decide)).1.trans (by decide)

/-! ## Theorems: `process_draft` -/

theorem process_draft_body_skip (sys : Sys) (w : World) (ent : DirEntry)
    (hmd : strings_HasSuffix ent.Name MD_SUFFIX = false) :
    process_draft_body sys w ent =
      Printf w ("WARNING: skip non-markdown file in draft: ".toList ++ sys.quote ent.Name) := by
  unfold process_draft_body
  simp [hmd]

theorem process_draft_body_info_error (sys : Sys) (w : World) (ent : DirEntry) (err : Str)
    (hmd : strings_HasSuffix ent.Name MD_SUFFIX = true) (hinfo : ent.Info = .error err) :
    process_draft_body sys w ent =
      Printf w ("ERROR: can not get file info ".toList ++ sys.quote ent.Name ++
        ": ".toList ++ err) := by
  unfold process_draft_body
  simp [hmd, hinfo]

theorem process_draft_body_rename (sys : Sys) (w : World) (ent : DirEntry) (t : Time)
    (hmd : strings_HasSuffix ent.Name MD_SUFFIX = true) (hinfo : ent.Info = .ok t) :
    process_draft_body sys w ent =
      match os_Rename sys
        { w with renames := w.renames ++ [(path_Join [DRAFT_DIR, ent.Name],
            path_Join [ARTICLE_DIR, t.Format ++ "--".toList ++ ent.Name])] }
        (path_Join [DRAFT_DIR, ent.Name])
        (path_Join [ARTICLE_DIR, t.Format ++ "--".toList ++ ent.Name]) with
      | .ok w2 => w2
      | .error _ =>
        { w with renames := w.renames ++ [(path_Join [DRAFT_DIR, ent.Name],
            path_Join [ARTICLE_DIR, t.Format ++ "--".toList ++ ent.Name])] } := by
  unfold process_draft_body
  simp [hmd, hinfo]

/-- One round of the loop of `process_draft`: the output directory and the
registry are untouched, the rename asked for is recorded, and the two input
directories change only by a rename that succeeded. -/
theorem process_draft_body_cases (sys : Sys) (w : World) (ent : DirEntry)
    (hname : '/' ∉ ent.Name) :
    (process_draft_body sys w ent).publish = w.publish ∧
      (process_draft_body sys w ent).article_list = w.article_list ∧
      (process_draft_body sys w ent).renames =
        w.renames ++ (promotion ent).toList ∧
      (((process_draft_body sys w ent).draft = w.draft ∧
          (process_draft_body sys w ent).article = w.article) ∨
        ∃ t e, strings_HasSuffix ent.Name MD_SUFFIX = true ∧ ent.Info = .ok t ∧
          sys.rename_err (path_Join [DRAFT_DIR, ent.Name])
            (path_Join [ARTICLE_DIR, t.Format ++ "--".toList ++ ent.Name]) = none ∧
          lookupEntry w.draft ent.Name = some e ∧
          (process_draft_body sys w ent).draft =
            w.draft.filter (fun x => decide (x.Name ≠ ent.Name)) ∧
          (process_draft_body sys w ent).article =
            { e with Name := t.Format ++ "--".toList ++ ent.Name } ::
              w.article.filter
                (fun x => decide (x.Name ≠ t.Format ++ "--".toList ++ ent.Name))) := by
  by_cases hmd : strings_HasSuffix ent.Name MD_SUFFIX = true
  · have hgood : GoodName ent.Name := goodName_of_md ent.Name hmd hname
    cases hinfo : ent.Info with
    | error err =>
      rw [process_draft_body_info_error sys w ent err hmd hinfo]
      simp [Printf, promotion, hmd, hinfo]
    | ok t =>
      have hold := path_Join_two DRAFT_DIR ent.Name (by decide) hgood
      have hnew := path_Join_two ARTICLE_DIR _ (by decide) (goodName_promoted t ent.Name hgood)
      have hprom : (promotion ent).toList = [(path_Join [DRAFT_DIR, ent.Name],
          path_Join [ARTICLE_DIR, t.Format ++ "--".toList ++ ent.Name])] := by
        rw [hold, hnew]
        simp [promotion, hmd, hinfo]
      rw [process_draft_body_rename sys w ent t hmd hinfo, hprom]
      cases hren : os_Rename sys
        { w with renames := w.renames ++ [(path_Join [DRAFT_DIR, ent.Name],
            path_Join [ARTICLE_DIR, t.Format ++ "--".toList ++ ent.Name])] }
        (path_Join [DRAFT_DIR, ent.Name])
        (path_Join [ARTICLE_DIR, t.Format ++ "--".toList ++ ent.Name]) with
      | error err => exact ⟨rfl, rfl, rfl, Or.inl ⟨rfl, rfl⟩⟩
      | ok w2 =>
        obtain ⟨herr, n1, n2, e, hs1, hs2, hl, hw2⟩ := os_Rename_ok sys _ _ _ w2 hren
        rw [splitSlash_join DRAFT_DIR ent.Name (by decide) hgood] at hs1
        rw [splitSlash_join ARTICLE_DIR _ (by decide) (goodName_promoted t ent.Name hgood)] at hs2
        simp only [List.cons.injEq, true_and, and_true] at hs1 hs2
        subst hs1 hs2
        subst hw2
        exact ⟨rfl, rfl, rfl, Or.inr ⟨t, e, hmd, rfl, herr, hl, rfl, rfl⟩⟩
  · have hmd' : strings_HasSuffix ent.Name MD_SUFFIX = false := by simpa using hmd
    rw [process_draft_body_skip sys w ent hmd']
    simp [Printf, promotion, hmd']

theorem process_draft_loop_renames (sys : Sys) (drafts : List DirEntry) (w : World)
    (hnames : ∀ e ∈ drafts, '/' ∉ e.Name) :
    (process_draft_loop sys drafts w).renames = w.renames ++ drafts.filterMap promotion := by
  induction drafts generalizing w with
  | nil => simp [process_draft_loop]
  | cons ent rest ih =>
    rw [process_draft_loop, ih _ (fun e he => hnames e (List.mem_cons_of_mem _ he)),
      (process_draft_body_cases sys w ent (hnames ent (List.mem_cons_self _ _))).2.2.1]
    cases hp : promotion ent with
    | none => simp [List.filterMap_cons, hp]
    | some r => simp [List.filterMap_cons, hp]

theorem process_draft_body_keeps (sys : Sys) (w : World) (ent e : DirEntry)
    (hname : '/' ∉ ent.Name) (he : e ∈ w.draft)
    (hmd : strings_HasSuffix e.Name MD_SUFFIX = false) :
    e ∈ (process_draft_body sys w ent).draft := by
  rcases (process_draft_body_cases sys w ent hname).2.2.2 with h | ⟨t, e0, hmd0, _, _, _, hd, _⟩
  · rw [h.1]; exact he
  · rw [hd]
    refine List.mem_filter.2 ⟨he, ?_⟩
    have : e.Name ≠ ent.Name := fun h => by rw [h, hmd0] at hmd; exact absurd hmd (by decide)
    simpa using this

theorem process_draft_loop_keeps (sys : Sys) (drafts : List DirEntry) (w : World)
    (e : DirEntry) (hnames : ∀ x ∈ drafts, '/' ∉ x.Name) (he : e ∈ w.draft)
    (hmd : strings_HasSuffix e.Name MD_SUFFIX = false) :
    e ∈ (process_draft_loop sys drafts w).draft := by
  induction drafts generalizing w with
  | nil => exact he
  | cons ent rest ih =>
    rw [process_draft_loop]
    exact ih _ (fun x hx => hnames x (List.mem_cons_of_mem _ hx))
      (process_draft_body_keeps sys w ent e (hnames ent (List.mem_cons_self _ _)) he hmd)

/-! ## The claims on `process_draft` -/

/-- C6 (amended): for every listing of the drafts directory (names without a
slash), `os.Rename` is called exactly once, in listing order, for each entry
whose name ends in `.md` and whose file info can be read, from `draft/<name>`
to `article/<T>--<name>` with `T` the modification time formatted by
`20060102-150405`; an entry of `draft/` whose name does not end in `.md` is
still there afterwards. -/
theorem process_draft_renames (sys : Sys) (drafts : List DirEntry) (w : World)
    (hnames : ∀ e ∈ drafts, '/' ∉ e.Name) :
    (process_draft_loop sys drafts w).renames = w.renames ++ drafts.filterMap promotion ∧
      ∀ e ∈ w.draft, strings_HasSuffix e.Name MD_SUFFIX = false →
        e ∈ (process_draft_loop sys drafts w).draft :=
  ⟨process_draft_loop_renames sys drafts w hnames,
    fun e he hmd => process_draft_loop_keeps sys drafts w e hnames he hmd⟩

/-- C6, a concrete instance: `hello.md`, modified on 2024-03-05 at 14:22:01
UTC, goes to `article/20240305-142201--hello.md`, and `readme.txt` stays. -/
theorem process_draft_renames_witness :
    (∀ e ∈ [file "hello.md" "# Hello", file "readme.txt" "read me"], '/' ∉ e.Name) ∧
      (process_draft_loop ok_sys [file "hello.md" "# Hello", file "readme.txt" "read me"]
        (world [file "hello.md" "# Hello", file "readme.txt" "read me"] [])).renames =
        [("draft/hello.md".toList, "article/20240305-142201--hello.md".toList)] ∧
      ((process_draft_loop ok_sys [file "hello.md" "# Hello", file "readme.txt" "read me"]
        (world [file "hello.md" "# Hello", file "readme.txt" "read me"] [])).draft.map
          DirEntry.Name = ["readme.txt".toList] ∧
       (process_draft_loop ok_sys [file "hello.md" "# Hello", file "readme.txt" "read me"]
        (world [file "hello.md" "# Hello", file "readme.txt" "read me"] [])).article.map
          DirEntry.Name = ["20240305-142201--hello.md".toList]) :=
  ⟨by decide,
    (process_draft_renames ok_sys [file "hello.md" "# Hello", file "readme.txt" "read me"]
      (world [file "hello.md" "# Hello", file "readme.txt" "read me"] [])
      (by decide)).1.trans (by decide),
    by decide⟩

/-- C6 as stated fails: the name `hello.md` ends in `.md`, its file info cannot
be read, and no rename is made for it. -/
theorem process_draft_no_rename_without_info :
    strings_HasSuffix (file_no_info "hello.md" "# Hello").Name MD_SUFFIX = true ∧
      (process_draft_loop ok_sys [file_no_info "hello.md" "# Hello"]
        (world [file_no_info "hello.md" "# Hello"] [])).renames = [] ∧
      (process_draft_loop ok_sys [file_no_info "hello.md" "# Hello"]
        (world [file_no_info "hello.md" "# Hello"] [])).draft.map DirEntry.Name =
        ["hello.md".toList] := by
  decide

/-- Per-entry failures of `process_draft`: for a markdown entry of the drafts
listing, when reading the file info fails, one error line naming the entry is
printed, nothing else changes, and the loop goes on with the later entries;
when the rename fails, nothing is printed for it (the error of `os.Rename` is
dropped), the directories are unchanged, and the loop goes on with the later
entries; and `process_draft` aborts on no such failure, only when the
directory cannot be listed. -/
theorem process_draft_entry_failure (sys : Sys) (ent : DirEntry) (rest : List DirEntry)
    (w : World) (hmd : strings_HasSuffix ent.Name MD_SUFFIX = true) :
    (∀ err, ent.Info = .error err →
        process_draft_loop sys (ent :: rest) w =
          process_draft_loop sys rest
            { w with console := w.console ++
                ["ERROR: can not get file info ".toList ++ sys.quote ent.Name ++
                  ": ".toList ++ err] }) ∧
      (∀ t err, ent.Info = .ok t →
        os_Rename sys
          { w with renames := w.renames ++ [(path_Join [DRAFT_DIR, ent.Name],
              path_Join [ARTICLE_DIR, t.Format ++ "--".toList ++ ent.Name])] }
          (path_Join [DRAFT_DIR, ent.Name])
          (path_Join [ARTICLE_DIR, t.Format ++ "--".toList ++ ent.Name]) = .error err →
        process_draft_loop sys (ent :: rest) w =
          process_draft_loop sys rest
            { w with renames := w.renames ++ [(path_Join [DRAFT_DIR, ent.Name],
                path_Join [ARTICLE_DIR, t.Format ++ "--".toList ++ ent.Name])] }) ∧
      (sys.readdir_err DRAFT_DIR = none →
        process_draft sys w = .ok (process_draft_loop sys (sortEntries w.draft) w)) := by
  refine ⟨fun err hinfo => ?_, fun t err hinfo hren => ?_, fun hdir => ?_⟩
  · rw [process_draft_loop, process_draft_body_info_error sys w ent err hmd hinfo]
    rfl
  · rw [process_draft_loop, process_draft_body_rename sys w ent t hmd hinfo, hren]
  · unfold process_draft os_ReadDir
    simp [hdir]

/-- A concrete instance of the per-entry failures: the file info of `a.md`
cannot be read; an error line naming it is printed and the later entry `b.md`
is still promoted. -/
theorem process_draft_entry_failure_witness :
    strings_HasSuffix (file_no_info "a.md" "# A").Name MD_SUFFIX = true ∧
      (process_draft_loop ok_sys [file_no_info "a.md" "# A", file "b.md" "# B"]
          (world [file_no_info "a.md" "# A", file "b.md" "# B"] [])).console =
        ["ERROR: can not get file info \"a.md\": no such file or directory".toList] ∧
      (process_draft_loop ok_sys [file_no_info "a.md" "# A", file "b.md" "# B"]
          (world [file_no_info "a.md" "# A", file "b.md" "# B"] [])).renames =
        [("draft/b.md".toList, "article/20240305-142201--b.md".toList)] := by
  have h := (process_draft_entry_failure ok_sys (file_no_info "a.md" "# A")
    [file "b.md" "# B"] (world [file_no_info "a.md" "# A", file "b.md" "# B"] [])
    (by decide)).1 "no such file or directory".toList rfl
  refine ⟨by decide, ?_, ?_⟩
  · rw [h]; decide
  · rw [h]; decide

/-- C10 (what the code does): when the rename of `a.md` fails, `os.Rename` has
been called, the draft is still in place, the build has not aborted, and
nothing at all is printed, where a failure to read the file info prints an
error line. -/
theorem process_draft_rename_failure_silent :
    (process_draft norename_sys (world [file "a.md" "# A"] [])).toOption.map World.console =
        some [] ∧
      (process_draft norename_sys (world [file "a.md" "# A"] [])).toOption.map World.renames =
        some [("draft/a.md".toList, "article/20240305-142201--a.md".toList)] ∧
      (process_draft norename_sys (world [file "a.md" "# A"] [])).toOption.map
          (fun w => w.draft.map DirEntry.Name) = some ["a.md".toList] := by
  decide

/-! ## Theorems: a second run of the pipeline -/

theorem os_Rename_error (sys : Sys) (w : World) (oldpath newpath n1 n2 err : Str)
    (hs1 : splitSlash oldpath = [DRAFT_DIR, n1]) (hs2 : splitSlash newpath = [ARTICLE_DIR, n2])
    (h : os_Rename sys w oldpath newpath = .error err) :
    sys.rename_err oldpath newpath ≠ none ∨ lookupEntry w.draft n1 = none := by
  unfold os_Rename at h
  cases he : sys.rename_err oldpath newpath with
  | some e => exact Or.inl (by simp)
  | none =>
    right
    simp only [he, hs1, hs2, and_self, if_true] at h
    cases hl : lookupEntry w.draft n1 with
    | none => rfl
    | some e => rw [hl] at h; simp at h

theorem lookupEntry_of_mem (l : List DirEntry) (e : DirEntry) (he : e ∈ l) :
    lookupEntry l e.Name ≠ none := by
  unfold lookupEntry
  intro h
  have := List.find?_eq_none.1 h e he
  simp at this

/-- One round of the loop of `process_draft` on the directories: nothing for
an inert entry or for a name `draft/` does not hold, else the entry moves. -/
theorem process_draft_body_step (sys : Sys) (w : World) (ent : DirEntry)
    (hname : '/' ∉ ent.Name) :
    ((Inert sys ent ∨ lookupEntry w.draft ent.Name = none) ∧
        (process_draft_body sys w ent).draft = w.draft ∧
        (process_draft_body sys w ent).article = w.article) ∨
      ∃ (t : Time) (e : DirEntry), strings_HasSuffix ent.Name MD_SUFFIX = true ∧
        ent.Info = .ok t ∧
        sys.rename_err (path_Join [DRAFT_DIR, ent.Name])
          (path_Join [ARTICLE_DIR, t.Format ++ "--".toList ++ ent.Name]) = none ∧
        (process_draft_body sys w ent).draft =
          w.draft.filter (fun x => decide (x.Name ≠ ent.Name)) ∧
        (process_draft_body sys w ent).article =
          { e with Name := t.Format ++ "--".toList ++ ent.Name } ::
            w.article.filter
              (fun x => decide (x.Name ≠ t.Format ++ "--".toList ++ ent.Name)) := by
  by_cases hmd : strings_HasSuffix ent.Name MD_SUFFIX = true
  · have hgood : GoodName ent.Name := goodName_of_md ent.Name hmd hname
    cases hinfo : ent.Info with
    | error err =>
      rw [process_draft_body_info_error sys w ent err hmd hinfo]
      exact Or.inl ⟨Or.inl (Or.inr (Or.inl ⟨err, hinfo⟩)), rfl, rfl⟩
    | ok t =>
      rw [process_draft_body_rename sys w ent t hmd hinfo]
      have hs1 := splitSlash_join DRAFT_DIR ent.Name (by decide) hgood
      have hs2 := splitSlash_join ARTICLE_DIR _ (by decide) (goodName_promoted t ent.Name hgood)
      cases hren : os_Rename sys
        { w with renames := w.renames ++ [(path_Join [DRAFT_DIR, ent.Name],
            path_Join [ARTICLE_DIR, t.Format ++ "--".toList ++ ent.Name])] }
        (path_Join [DRAFT_DIR, ent.Name])
        (path_Join [ARTICLE_DIR, t.Format ++ "--".toList ++ ent.Name]) with
      | error err =>
        rcases os_Rename_error sys _ _ _ _ _ err hs1 hs2 hren with h | h
        · exact Or.inl ⟨Or.inl (Or.inr (Or.inr ⟨t, hinfo, h⟩)), rfl, rfl⟩
        · exact Or.inl ⟨Or.inr h, rfl, rfl⟩
      | ok w2 =>
        obtain ⟨herr, n1, n2, e, hs1', hs2', hl, hw2⟩ := os_Rename_ok sys _ _ _ w2 hren
        rw [hs1] at hs1'
        rw [hs2] at hs2'
        simp only [List.cons.injEq, true_and, and_true] at hs1' hs2'
        subst hs1' hs2'
        subst hw2
        exact Or.inr ⟨t, e, hmd, rfl, herr, rfl, rfl⟩
  · have hmd' : strings_HasSuffix ent.Name MD_SUFFIX = false := by simpa using hmd
    rw [process_draft_body_skip sys w ent hmd']
    exact Or.inl ⟨Or.inl (Or.inl hmd'), rfl, rfl⟩

theorem process_draft_body_inert (sys : Sys) (w : World) (ent : DirEntry)
    (hname : '/' ∉ ent.Name) (hin : Inert sys ent) :
    (process_draft_body sys w ent).draft = w.draft ∧
      (process_draft_body sys w ent).article = w.article := by
  rcases process_draft_body_step sys w ent hname with h | ⟨t, e, hmd, hinfo, herr, _, _⟩
  · exact h.2
  · exfalso
    rcases hin with h | ⟨err, h⟩ | ⟨t', h, hne⟩
    · rw [hmd] at h; exact absurd h (by decide)
    · rw [hinfo] at h; cases h
    · rw [hinfo] at h
      cases h
      exact hne herr

theorem process_draft_loop_inert (sys : Sys) (drafts : List DirEntry) (w : World)
    (h : ∀ e ∈ drafts, '/' ∉ e.Name ∧ Inert sys e) :
    (process_draft_loop sys drafts w).draft = w.draft ∧
      (process_draft_loop sys drafts w).article = w.article := by
  induction drafts generalizing w with
  | nil => exact ⟨rfl, rfl⟩
  | cons ent rest ih =>
    rw [process_draft_loop]
    have h1 := ih (process_draft_body sys w ent) (fun e he => h e (List.mem_cons_of_mem _ he))
    have h0 := h ent (List.mem_cons_self _ _)
    have h2 := process_draft_body_inert sys w ent h0.1 h0.2
    exact ⟨h1.1.trans h2.1, h1.2.trans h2.2⟩

theorem process_draft_loop_fields (sys : Sys) (drafts : List DirEntry) (w : World)
    (hnames : ∀ e ∈ drafts, '/' ∉ e.Name) :
    (process_draft_loop sys drafts w).publish = w.publish ∧
      (process_draft_loop sys drafts w).article_list = w.article_list := by
  induction drafts generalizing w with
  | nil => exact ⟨rfl, rfl⟩
  | cons ent rest ih =>
    rw [process_draft_loop]
    have h1 := ih (process_draft_body sys w ent) (fun e he => hnames e (List.mem_cons_of_mem _ he))
    have h2 := process_draft_body_cases sys w ent (hnames ent (List.mem_cons_self _ _))
    exact ⟨h1.1.trans h2.1, h1.2.trans h2.2.1⟩

theorem process_draft_loop_left_inert (sys : Sys) (drafts : List DirEntry) (w : World)
    (hnames : ∀ e ∈ drafts, '/' ∉ e.Name)
    (h : ∀ e ∈ w.draft, Inert sys e ∨ e ∈ drafts) :
    ∀ e ∈ (process_draft_loop sys drafts w).draft, Inert sys e := by
  induction drafts generalizing w with
  | nil =>
    intro e he
    rcases h e he with hi | hm
    · exact hi
    · cases hm
  | cons ent rest ih =>
    rw [process_draft_loop]
    refine ih _ (fun e he => hnames e (List.mem_cons_of_mem _ he)) ?_
    intro e he
    rcases process_draft_body_step sys w ent (hnames ent (List.mem_cons_self _ _)) with
      ⟨hwhy, hd, _⟩ | ⟨t, e0, _, _, _, hd, _⟩
    · rw [hd] at he
      rcases h e he with hi | hm
      · exact Or.inl hi
      · rcases List.mem_cons.1 hm with rfl | hm
        · rcases hwhy with hi | hl
          · exact Or.inl hi
          · exact absurd hl (lookupEntry_of_mem w.draft e he)
        · exact Or.inr hm
    · rw [hd] at he
      obtain ⟨he1, he2⟩ := List.mem_filter.1 he
      rcases h e he1 with hi | hm
      · exact Or.inl hi
      · rcases List.mem_cons.1 hm with rfl | hm
        · simp at he2
        · exact Or.inr hm

theorem process_draft_loop_names (sys : Sys) (drafts : List DirEntry) (w : World)
    (hnames : ∀ e ∈ drafts, '/' ∉ e.Name) (hd : ∀ e ∈ w.draft, '/' ∉ e.Name)
    (ha : ∀ e ∈ w.article, '/' ∉ e.Name) :
    (∀ e ∈ (process_draft_loop sys drafts w).draft, '/' ∉ e.Name) ∧
      ∀ e ∈ (process_draft_loop sys drafts w).article, '/' ∉ e.Name := by
  induction drafts generalizing w with
  | nil => exact ⟨hd, ha⟩
  | cons ent rest ih =>
    rw [process_draft_loop]
    have hent := hnames ent (List.mem_cons_self _ _)
    refine ih _ (fun e he => hnames e (List.mem_cons_of_mem _ he)) ?_ ?_
    · rcases process_draft_body_step sys w ent hent with
        ⟨_, h1, _⟩ | ⟨t, e0, _, _, _, h1, _⟩
      · rw [h1]; exact hd
      · rw [h1]; exact fun e he => hd e (List.mem_filter.1 he).1
    · rcases process_draft_body_step sys w ent hent with
        ⟨_, _, h2⟩ | ⟨t, e0, hmd, _, _, _, h2⟩
      · rw [h2]; exact ha
      · rw [h2]
        intro e he
        rcases List.mem_cons.1 he with rfl | he
        · exact (goodName_promoted t ent.Name (goodName_of_md ent.Name hmd hent)).2.1
        · exact ha e (List.mem_filter.1 he).1

theorem mem_sortEntries (l : List DirEntry) (e : DirEntry) : e ∈ sortEntries l ↔ e ∈ l :=
  (List.perm_insertionSort _ l).mem_iff

theorem publish_rel_trans (a0 a1 a2 b0 b1 b2 : Str → Option Str)
    (h1 : ∀ q, b1 q = a1 q ∨ (b1 q = b0 q ∧ a1 q = a0 q))
    (h2 : ∀ q, b2 q = a2 q ∨ (b2 q = b1 q ∧ a2 q = a1 q)) :
    ∀ q, b2 q = a2 q ∨ (b2 q = b0 q ∧ a2 q = a0 q) := by
  intro q
  rcases h2 q with h | ⟨hb, ha⟩
  · exact Or.inl h
  · rcases h1 q with h | ⟨hb1, ha1⟩
    · exact Or.inl (by rw [hb, ha, h])
    · exact Or.inr ⟨hb.trans hb1, ha.trans ha1⟩

theorem process_article_body_rel (sys : Sys) (a b : World) (ent : DirEntry)
    (hname : '/' ∉ ent.Name) (hart : a.article = b.article)
    (hlist : a.article_list = b.article_list) :
    (process_article_body sys a ent).article_list =
        (process_article_body sys b ent).article_list ∧
      ∀ q, (process_article_body sys b ent).publish q =
            (process_article_body sys a ent).publish q ∨
          ((process_article_body sys b ent).publish q = b.publish q ∧
            (process_article_body sys a ent).publish q = a.publish q) := by
  by_cases hmd : strings_HasSuffix ent.Name MD_SUFFIX = true
  · have hgood : GoodName ent.Name := goodName_of_md ent.Name hmd hname
    have hread : os_ReadFile a (path_Join [ARTICLE_DIR, ent.Name]) =
        os_ReadFile b (path_Join [ARTICLE_DIR, ent.Name]) := by
      rw [os_ReadFile_article a ent.Name hgood, os_ReadFile_article b ent.Name hgood, hart]
    have hrel := process_file_rel sys a b (path_Join [ARTICLE_DIR, ent.Name])
      (path_Join [PUBLISH_DIR, strings_TrimSuffix ent.Name MD_SUFFIX ++ HTML_SUFFIX]) hread
    refine ⟨?_, ?_⟩
    · rw [process_article_body_list, process_article_body_list, hlist, hrel.1]
    · unfold process_article_body
      simp only [hmd, Bool.not_true, Bool.false_eq_true, if_false]
      exact hrel.2
  · have hmd' : strings_HasSuffix ent.Name MD_SUFFIX = false := by simpa using hmd
    refine ⟨?_, fun q => Or.inr ?_⟩
    · rw [process_article_body_list, process_article_body_list, hlist, if_neg hmd, if_neg hmd]
    · unfold process_article_body
      simp [hmd', Printf]

theorem process_article_loop_rel (sys : Sys) (articles : List DirEntry) (a b : World)
    (hnames : ∀ e ∈ articles, '/' ∉ e.Name) (hart : a.article = b.article)
    (hlist : a.article_list = b.article_list) :
    (process_article_loop sys articles a).article_list =
        (process_article_loop sys articles b).article_list ∧
      ∀ q, (process_article_loop sys articles b).publish q =
            (process_article_loop sys articles a).publish q ∨
          ((process_article_loop sys articles b).publish q = b.publish q ∧
            (process_article_loop sys articles a).publish q = a.publish q) := by
  induction articles generalizing a b with
  | nil => exact ⟨hlist, fun q => Or.inr ⟨rfl, rfl⟩⟩
  | cons ent rest ih =>
    rw [process_article_loop, process_article_loop]
    have hstep := process_article_body_rel sys a b ent (hnames ent (List.mem_cons_self _ _))
      hart hlist
    have hart' : (process_article_body sys a ent).article =
        (process_article_body sys b ent).article := by
      rw [(process_article_body_fields sys a ent).2.1,
        (process_article_body_fields sys b ent).2.1, hart]
    have hrest := ih (process_article_body sys a ent) (process_article_body sys b ent)
      (fun e he => hnames e (List.mem_cons_of_mem _ he)) hart' hstep.1
    exact ⟨hrest.1, publish_rel_trans _ _ _ _ _ _ hstep.2 hrest.2⟩

theorem process_index_fields (sys : Sys) (w : World) :
    (process_index sys w).draft = w.draft ∧ (process_index sys w).article = w.article ∧
      (process_index sys w).article_list = w.article_list := by
  unfold process_index
  rcases os_OpenFile_cases sys (path_Join [PUBLISH_DIR, INDEX_HTML]) with
    ⟨err, h⟩ | ⟨n, h⟩
  · simp [h w, Printf]
  · simp [h w, File_Write]

theorem process_index_rel (sys : Sys) (a b : World) (hlist : a.article_list = b.article_list) :
    ∀ q, (process_index sys b).publish q = (process_index sys a).publish q ∨
      ((process_index sys b).publish q = b.publish q ∧
        (process_index sys a).publish q = a.publish q) := by
  intro q
  unfold process_index
  rcases os_OpenFile_cases sys (path_Join [PUBLISH_DIR, INDEX_HTML]) with
    ⟨err, h⟩ | ⟨n, h⟩
  · simp [h a, h b, Printf]
  · by_cases hq : q = n
    · left; simp [h a, h b, File_Write, hq, hlist]
    · right; simp [h a, h b, File_Write, hq]

theorem main_ok (sys : Sys) (w wf : World) (h : main sys w = .ok wf) :
    sys.readdir_err DRAFT_DIR = none ∧ sys.readdir_err ARTICLE_DIR = none := by
  unfold main process_draft process_article os_ReadDir at h
  cases hd : sys.readdir_err DRAFT_DIR with
  | some e => simp [hd] at h
  | none =>
    cases ha : sys.readdir_err ARTICLE_DIR with
    | some e => simp [hd, ha] at h
    | none => exact ⟨rfl, rfl⟩

theorem main_eq (sys : Sys) (w : World) (hd : sys.readdir_err DRAFT_DIR = none)
    (ha : sys.readdir_err ARTICLE_DIR = none) :
    main sys w = .ok (process_index sys
      (process_article_loop sys
        (sortEntries (process_draft_loop sys (sortEntries w.draft)
          { w with console := [], article_list := [], renames := [] }).article)
        (process_draft_loop sys (sortEntries w.draft)
          { w with console := [], article_list := [], renames := [] }))) := by
  have h1 : ARTICLE_DIR ≠ DRAFT_DIR := by decide
  unfold main process_draft process_article os_ReadDir
  simp [hd, ha, h1]

theorem main_second_run (sys : Sys) (w : World) (hdraft : ∀ e ∈ w.draft, '/' ∉ e.Name)
    (harticle : ∀ e ∈ w.article, '/' ∉ e.Name) (hd : sys.readdir_err DRAFT_DIR = none)
    (ha : sys.readdir_err ARTICLE_DIR = none) (wf wf2 : World) (h1 : main sys w = .ok wf)
    (h2 : main sys wf = .ok wf2) :
    (∀ q, wf2.publish q = wf.publish q) ∧ wf2.article_list = wf.article_list ∧
      wf2.draft = wf.draft ∧ wf2.article = wf.article := by
  rw [main_eq sys w hd ha] at h1
  rw [main_eq sys wf hd ha] at h2
  simp only [Except.ok.injEq] at h1 h2
  -- the first run
  have hL1 : ∀ e ∈ sortEntries w.draft, '/' ∉ e.Name :=
    fun e he => hdraft e ((mem_sortEntries _ e).1 he)
  generalize hwd : process_draft_loop sys (sortEntries w.draft)
    { w with console := [], article_list := [], renames := [] } = wd at h1
  have hwd_fields := process_draft_loop_fields sys (sortEntries w.draft)
    { w with console := [], article_list := [], renames := [] } hL1
  have hwd_names := process_draft_loop_names sys (sortEntries w.draft)
    { w with console := [], article_list := [], renames := [] } hL1 hdraft harticle
  have hwd_inert := process_draft_loop_left_inert sys (sortEntries w.draft)
    { w with console := [], article_list := [], renames := [] } hL1
    (fun e he => Or.inr ((mem_sortEntries _ e).2 he))
  rw [hwd] at hwd_fields hwd_names hwd_inert
  have hwa := process_article_loop_fields sys (sortEntries wd.article) wd
  have hwf := process_index_fields sys (process_article_loop sys (sortEntries wd.article) wd)
  rw [h1] at hwf
  have hfd : wf.draft = wd.draft := hwf.1.trans hwa.1
  have hfa : wf.article = wd.article := hwf.2.1.trans hwa.2.1
  -- the promoter of the second run changes no directory
  have hL2 : ∀ e ∈ sortEntries wf.draft, '/' ∉ e.Name ∧ Inert sys e := by
    intro e he
    have he' : e ∈ wd.draft := hfd ▸ (mem_sortEntries _ e).1 he
    exact ⟨hwd_names.1 e he', hwd_inert e he'⟩
  generalize hwd2 : process_draft_loop sys (sortEntries wf.draft)
    { wf with console := [], article_list := [], renames := [] } = wd2 at h2
  have hwd2_dirs := process_draft_loop_inert sys (sortEntries wf.draft)
    { wf with console := [], article_list := [], renames := [] } hL2
  have hwd2_fields := process_draft_loop_fields sys (sortEntries wf.draft)
    { wf with console := [], article_list := [], renames := [] } (fun e he => (hL2 e he).1)
  rw [hwd2] at hwd2_dirs hwd2_fields
  have hart : wd.article = wd2.article := (hwd2_dirs.2.trans hfa).symm
  have hlist : wd.article_list = wd2.article_list := hwd_fields.2.trans hwd2_fields.2.symm
  -- the article processor and the index builder run in step
  have hLA : ∀ e ∈ sortEntries wd.article, '/' ∉ e.Name :=
    fun e he => hwd_names.2 e ((mem_sortEntries _ e).1 he)
  have hloop := process_article_loop_rel sys (sortEntries wd.article) wd wd2 hLA hart hlist
  have hindex := process_index_rel sys (process_article_loop sys (sortEntries wd.article) wd)
    (process_article_loop sys (sortEntries wd.article) wd2) hloop.1
  have hrel := publish_rel_trans _ _ _ _ _ _ hloop.2 hindex
  rw [← hart] at h2
  rw [h1, h2] at hrel
  have hwa2 := process_article_loop_fields sys (sortEntries wd.article) wd2
  have hwf2 := process_index_fields sys (process_article_loop sys (sortEntries wd.article) wd2)
  rw [h2] at hwf2
  have hwf' := process_index_fields sys (process_article_loop sys (sortEntries wd.article) wd)
  rw [h1] at hwf'
  refine ⟨fun q => ?_, ?_, ?_, ?_⟩
  · rcases hrel q with h | ⟨hb, _⟩
    · exact h
    · rw [hb, hwd2_fields.1]
  · rw [hwf2.2.2, hwf'.2.2, hloop.1]
  · rw [hwf2.1, hwa2.1, hwd2_dirs.1]
  · rw [hwf2.2.1, hwa2.2.1, hwd2_dirs.2]

/-! ## The claim on the whole pipeline -/

/-- C9: when the pipeline completes on a state (the names in `draft/` and
`article/` holding no slash), it completes again on the resulting state, and
after the second run every file of `publish/` holds what it held after the
first; the registry and the two input directories are the same too. -/
theorem main_idempotent (sys : Sys) (w wf : World) (hdraft : ∀ e ∈ w.draft, '/' ∉ e.Name)
    (harticle : ∀ e ∈ w.article, '/' ∉ e.Name) (hrun : main sys w = .ok wf) :
    ∃ wf2, main sys wf = .ok wf2 ∧ (∀ q, wf2.publish q = wf.publish q) ∧
      wf2.article_list = wf.article_list ∧ wf2.draft = wf.draft ∧ wf2.article = wf.article :=
  ⟨_, main_eq sys wf (main_ok sys w wf hrun).1 (main_ok sys w wf hrun).2,
    main_second_run sys w hdraft harticle (main_ok sys w wf hrun).1 (main_ok sys w wf hrun).2
      wf _ hrun (main_eq sys wf (main_ok sys w wf hrun).1 (main_ok sys w wf hrun).2)⟩

/-- C9, a concrete instance: a build that promotes `hello.md` and compiles it
next to `notes.md`, then a second build on the result. -/
theorem main_idempotent_witness :
    (∀ e ∈ demo_world.draft, '/' ∉ e.Name) ∧ (∀ e ∈ demo_world.article, '/' ∉ e.Name) ∧
      ∃ wf wf2, main ok_sys demo_world = .ok wf ∧ main ok_sys wf = .ok wf2 ∧
        (∀ q, wf2.publish q = wf.publish q) ∧
        wf.article_list =
          [⟨"Hello".toList, "20240305-142201--hello.html".toList⟩,
            ⟨"notes".toList, "notes.html".toList⟩] ∧
        wf.draft.map DirEntry.Name = ["readme.txt".toList] := by
  have hrun : main ok_sys demo_world = .ok (process_index ok_sys
      (process_article_loop ok_sys
        (sortEntries (process_draft_loop ok_sys (sortEntries demo_world.draft)
          { demo_world with console := [], article_list := [], renames := [] }).article)
        (process_draft_loop ok_sys (sortEntries demo_world.draft)
          { demo_world with console := [], article_list := [], renames := [] }))) := rfl
  obtain ⟨wf2, h2, hpub, _⟩ :=
    main_idempotent ok_sys demo_world _ (by decide) (by decide) hrun
  exact ⟨by decide, by decide, _, wf2, hrun, h2, hpub, by decide, by decide⟩

end Microblog
